import Mathlib

/-!
Verification of the guest-kernel memory manager of the Quark sandbox.

The definitions below are a shallow embedding of the Rust sources
`src/qkernel/src/memmgr/mm.rs` and
`src/qkernel/src/threadmgr/task_usermem.rs`.  Machine integers (`u64`,
`i32`) are modelled by `Nat` / `Int`; the one place where `u64`
wrap-around matters (the `addr - vAddr` subtraction in `FixPermission`)
uses an explicit modulus `2 ^ 64`.  Fallible Rust functions returning
`Result` are modelled by the `Res` type below.
-/

/-- Error type mirroring `qlib::common::Error`: either a `SysError(errno)`
or the internal `AddressNotMap(addr)` used by the page-table walker. -/
inductive Err where
  | SysError (errno : Nat)
  | AddressNotMap (addr : Nat)
deriving DecidableEq, Repr

/-- Rust `Result<T>` - either a value or an `Error`. -/
inductive Res (α : Type) where
  | ok (a : α)
  | error (e : Err)
deriving DecidableEq, Repr

namespace SysErr

/-- Linux errno numbers used by the sources (`SysErr` in `linux_def.rs`). -/
def EFAULT : Nat := 14

def ENOMEM : Nat := 12

def ERANGE : Nat := 34

def ENAMETOOLONG : Nat := 36

end SysErr

namespace MemoryDef

/-- Page size: 4 KiB, `MemoryDef::PAGE_SIZE`. -/
def PAGE_SIZE : Nat := 0x1000

end MemoryDef

/-- `core::u64::MAX`. -/
def U64MAX : Nat := 2 ^ 64 - 1

/-- Modulus of `u64` arithmetic. -/
def U64MOD : Nat := 2 ^ 64

/-- Wrapping `u64` subtraction `a - b` (operands below `2 ^ 64`). -/
def sub64 (a b : Nat) : Nat := (a + U64MOD - b) % U64MOD

/-- `Addr::RoundDown`: round an address down to its page base. -/
def roundDown (a : Nat) : Nat := a - a % MemoryDef.PAGE_SIZE

/-! ## Flat guest-memory model for the user-memory transfer layer

`CompareAndSwap`, `CopyInString` and `CopyInVector`
(`task_usermem.rs`) move bytes through `V2PLocked` /
`CopyDataInLocked`, which translate guest-virtual iovecs to physical
iovecs and copy byte-by-byte.  That translation layer
(`V2PLocked`, `FixPermissionLocked`) is code of the repository that is
not under `src/`; following the spec (and the repositoryʼs own
`#[cfg(test)] VirtualToPhy`, which is the identity) it is modelled as
the identity mapping on a flat, fully readable and writable guest
memory `Mem`.  Strings are modelled as their byte lists. -/

/-- Guest memory: a total byte map over `u64` addresses. -/
abbrev Mem := Nat → Nat

/-- Point update of a byte map. -/
def memUpd (m : Mem) (a v : Nat) : Mem := fun x => if x = a then v else m x

/-- Read `n` consecutive bytes starting at `a`. -/
def readBytes (m : Mem) (a n : Nat) : List Nat :=
  (List.range n).map (fun i => m (a + i))

/-- Read an `n`-byte little-endian value at `a`
(`CopyInObjLocked::<T>` on the flat memory). -/
def readLE (m : Mem) (a : Nat) : Nat → Nat
  | 0 => 0
  | Nat.succ n => m a + 256 * readLE m (a + 1) n

/-- Write an `n`-byte little-endian value at `a`
(`CopyOutObjLocked::<T>` on the flat memory). -/
def writeLE (m : Mem) (a : Nat) : Nat → Nat → Mem
  | 0, _ => m
  | Nat.succ n, v => writeLE (memUpd m a (v % 256)) (a + 1) n (v / 256)

/-- Embedding of `MemoryManager::CompareAndSwap<T>`
(`task_usermem.rs` lines 117-128): read the current value; if it
differs from `old` return it unchanged; otherwise write `new` and
return the observed value.  `T` is an `n`-byte plain value. -/
def CompareAndSwap (m : Mem) (addr n old new : Nat) : Mem × Res Nat :=
  let val := readLE m addr n
  if val ≠ old then (m, .ok val)
  else (writeLE m addr n new, .ok val)

/-- Modelled from the spec: `FixPermissionLocked` on the flat
fully-accessible memory-the whole requested range is accessible, so
the fix-up returns the requested length after the null-address and
overflow checks that `FixPermission` (mm.rs line 536) performs. -/
def fixPermissionFlat (addr len : Nat) : Res Nat :=
  if U64MAX - addr < len ∨ addr = 0 then .error (.SysError SysErr.EFAULT)
  else .ok len

/-- Embedding of `MemoryManager::CheckPermissionLocked`
(`task_usermem.rs` lines 235-245) over the flat memory: a zero length
short-circuits to `Ok(0)` before the null-address check. -/
def CheckPermissionLockedFlat (vAddr len : Nat)
    (_writeReq _allowPart : Bool) : Res Nat :=
  if len = 0 then .ok 0
  else if vAddr = 0 then .error (.SysError SysErr.EFAULT)
  else fixPermissionFlat vAddr len

/-- Scan of the `for i in 0..data.len()` loop of `CopyInString`:
returns the bytes before the first NUL and whether a NUL was found. -/
def scanNul : List Nat → List Nat × Bool
  | [] => ([], false)
  | b :: rest =>
    if b = 0 then ([], true)
    else
      let (pre, found) := scanNul rest
      (b :: pre, found)

/-- Embedding of `MemoryManager::CopyInString`
(`task_usermem.rs` lines 211-229): clip `maxlen` by the permission
check, copy that many bytes, and stop at the first NUL; when no NUL is
found return the full slice together with `ENAMETOOLONG`. -/
def CopyInString (m : Mem) (addr maxlen : Nat) : List Nat × Res Unit :=
  match CheckPermissionLockedFlat addr maxlen false true with
  | .error e => ([], .error e)
  | .ok maxlen' =>
    let data := readBytes m addr maxlen'
    match scanNul data with
    | (pre, true) => (pre, .ok ())
    | (_, false) => (data, .error (.SysError SysErr.ENAMETOOLONG))

/-- Read `count` 8-byte pointers starting at `addr`
(`CopyInVec::<u64>` on the flat memory). -/
def readPtrs (m : Mem) (addr count : Nat) : List Nat :=
  (List.range count).map (fun i => readLE m (addr + 8 * i) 8)

/-- The element loop of `CopyInVector` (`task_usermem.rs` lines
173-201): stop at a NULL pointer, fail with `ENOMEM` once the budget
is exhausted, clamp each elementʼs length to the remaining budget and
decrement the budget by `len + 1` per copied element. -/
def civLoop (m : Mem) (maxElemSize : Nat) :
    List Nat → Int → Res (List (List Nat))
  | [], _ => .ok []
  | ptr :: rest, maxTotalSize =>
    if ptr = 0 then .ok []
    else if maxTotalSize ≤ 0 then .error (.SysError SysErr.ENOMEM)
    else
      let thisMax : Nat :=
        if maxTotalSize < (maxElemSize : Int) then maxTotalSize.toNat
        else maxElemSize
      match CopyInString m ptr thisMax with
      | (_, .error e) => .error e
      | (str, .ok _) =>
        match civLoop m maxElemSize rest (maxTotalSize - ((str.length : Int) + 1)) with
        | .ok v => .ok (str :: v)
        | .error e => .error e

/-- Embedding of `MemoryManager::CopyInVector`
(`task_usermem.rs` lines 162-204): a NULL `addr` yields the empty
list; otherwise read up to `maxElemSize` pointers and copy the
pointed-to strings under the `maxTotalSize` budget. -/
def CopyInVector (m : Mem) (addr : Nat) (maxElemSize : Nat)
    (maxTotalSize : Int) : Res (List (List Nat)) :=
  if addr = 0 then .ok []
  else
    match fixPermissionFlat addr (maxElemSize * 8) with
    | .error e => .error e
    | .ok maxlen =>
      let addresses := readPtrs m addr (maxlen / 8)
      civLoop m maxElemSize addresses maxTotalSize

/-! ## Data model of the memory manager (`mm.rs`)

`Range`, `AccessType`, the `AreaSet` of VMAs and the page-table engine
live in `qlib` files that are not under `src/`; they are modelled from
the spec (sections 3, 4.1, 4.2).  The VMA set is a list of
disjoint, ordered `(Range, VMA)` segments; the page table is an
association list from page-aligned virtual addresses to leaf entries.
Calls out to `Mappable` objects and TLB invalidations are recorded in
an event log. -/

/-- Modelled from the spec: `Range` - half-open interval `[start, start+len)`. -/
structure Range where
  start : Nat
  len : Nat
deriving DecidableEq, Repr

def Range.Start (r : Range) : Nat := r.start

def Range.End (r : Range) : Nat := r.start + r.len

def Range.Len (r : Range) : Nat := r.len

def Range.Contains (r : Range) (a : Nat) : Bool :=
  decide (r.Start ≤ a ∧ a < r.End)

/-- Modelled from the spec: `AccessType` - read/write/execute permission bits. -/
structure AccessType where
  read : Bool
  write : Bool
  exec : Bool
deriving DecidableEq, Repr

def AccessType.ReadWrite : AccessType := ⟨true, true, false⟩

def AccessType.ReadOnly : AccessType := ⟨true, false, false⟩

/-- Modelled from the spec: `AccessType::String` - the three-character
`rwx` permission string used in `/proc` maps lines. -/
def AccessType.permString (a : AccessType) : String :=
  (if a.read then "r" else "-") ++ (if a.write then "w" else "-") ++
    (if a.exec then "x" else "-")

/-- Modelled from the spec: the device/inode identity a VMA may carry
for `/proc` rendering (`vma.id`). -/
structure MappingIdent where
  deviceID : Nat
  inodeID : Nat
  mappedName : String
deriving DecidableEq, Repr

/-- The `VMA` record (`memmgr/vma.rs`, fields as listed in the spec and
as constructed in `mm.rs::Init`).  `mappable` is an abstract `Mappable`
identity; `vmaPrivate` is the source field `private`. -/
structure VMA where
  mappable : Option Nat
  offset : Nat
  fixed : Bool
  realPerms : AccessType
  effectivePerms : AccessType
  maxPerms : AccessType
  vmaPrivate : Bool
  growsDown : Bool
  kernel : Bool
  hint : String
  id : Option MappingIdent
deriving DecidableEq, Repr

/-- Modelled from the spec: `VMA::CanWriteMappableLocked` - whether the
mapping registered with the `Mappable` counts as writable (effective
write permission on a shared mapping). -/
def VMA.CanWriteMappableLocked (v : VMA) : Bool :=
  v.effectivePerms.write && !v.vmaPrivate

/-- A page-table leaf: physical frame, writable bit, user bit. -/
structure PtEntry where
  pa : Nat
  writable : Bool
  user : Bool
deriving DecidableEq, Repr

/-- Modelled from the spec: the page-table engine, as a finite map from
page-aligned virtual addresses to leaves. -/
abbrev PageTable := List (Nat × PtEntry)

def ptLookup (pt : PageTable) (va : Nat) : Option PtEntry :=
  match pt.find? (fun e => e.1 == va) with
  | some e => some e.2
  | none => none

def ptSet (pt : PageTable) (va : Nat) (e : PtEntry) : PageTable :=
  (va, e) :: pt.filter (fun x => x.1 != va)

/-- `PageTables::MUnmap` - drop every leaf of the range. -/
def ptMUnmap (pt : PageTable) (r : Range) : PageTable :=
  pt.filter (fun x => !(r.Contains x.1))

/-- `PageTables::SetPageFlags` - change the flags of an existing leaf. -/
def ptSetPageFlags (pt : PageTable) (va : Nat) (writable user : Bool) : PageTable :=
  pt.map (fun x =>
    if x.1 == va then (x.1, { x.2 with writable := writable, user := user }) else x)

/-- Write-protect a writable user leaf (the COW handshake). -/
def ptProtect (e : PtEntry) : PtEntry :=
  if e.user && e.writable then { e with writable := false } else e

/-- Modelled from the spec: `PageTables::Fork` - produce a child table
that write-protects every writable user leaf in both parent and child;
the child starts as a copy of the parent. -/
def ptFork (pt : PageTable) : PageTable × PageTable :=
  let p := pt.map (fun x => (x.1, ptProtect x.2))
  (p, p)

/-- Modelled from the spec: `PageTables::ForkRange` - COW-mark a range:
its leaves are write-protected in the source and installed
write-protected in the destination. -/
def ptForkRange (src dst : PageTable) (r : Range) : PageTable × PageTable :=
  let src' := src.map (fun x =>
    if r.Contains x.1 then (x.1, ptProtect x.2) else x)
  let dst' := src'.filter (fun x => r.Contains x.1) ++
    dst.filter (fun x => !(r.Contains x.1))
  (src', dst')

/-- The page-frame allocator (`PAGE_MGR`): a fresh-frame counter,
per-frame reference counts and abstract page contents. -/
structure PageMgr where
  nextFrame : Nat
  refs : List (Nat × Nat)
  contents : List (Nat × Nat)
deriving DecidableEq, Repr

def assocGet (l : List (Nat × Nat)) (k : Nat) : Option Nat :=
  match l.find? (fun e => e.1 == k) with
  | some e => some e.2
  | none => none

def assocSet (l : List (Nat × Nat)) (k v : Nat) : List (Nat × Nat) :=
  (k, v) :: l.filter (fun e => e.1 != k)

/-- `PageMgr::AllocPage` - hand out the next fresh frame with
reference count 1. -/
def PageMgr.AllocPage (pm : PageMgr) : Nat × PageMgr :=
  let f := pm.nextFrame
  (f, { pm with
          nextFrame := f + 1
          refs := assocSet pm.refs f 1
          contents := assocSet pm.contents f 0 })

/-- `PageMgr::GetRef` - reference count of a frame. -/
def PageMgr.GetRef (pm : PageMgr) (pa : Nat) : Option Nat :=
  assocGet pm.refs pa

def PageMgr.content (pm : PageMgr) (pa : Nat) : Nat :=
  (assocGet pm.contents pa).getD 0

/-- `CopyPage` - copy the bytes of one frame into another. -/
def PageMgr.copyContent (pm : PageMgr) (srcPa dstPa : Nat) : PageMgr :=
  { pm with contents := assocSet pm.contents dstPa (pm.content srcPa) }

/-- Modelled from the spec: `PageTables::CopyRange` - deep-copy a
range: each source leaf of the range gets a freshly allocated frame
with the page bytes copied, installed in the destination under the
source leafʼs flags. -/
def ptCopyEntries (pm : PageMgr) : List (Nat × PtEntry) → PageTable × PageMgr
  | [] => ([], pm)
  | x :: rest =>
    let f := (pm.AllocPage).1
    let pm2 := ((pm.AllocPage).2).copyContent x.2.pa f
    ((x.1, { x.2 with pa := f }) :: (ptCopyEntries pm2 rest).1,
     (ptCopyEntries pm2 rest).2)

def ptCopyRange (src dst : PageTable) (r : Range) (pm : PageMgr) :
    PageTable × PageMgr :=
  ((ptCopyEntries pm (src.filter (fun x => r.Contains x.1))).1 ++
     dst.filter (fun x => !(r.Contains x.1)),
   (ptCopyEntries pm (src.filter (fun x => r.Contains x.1))).2)

/-- Observable calls to external collaborators: `Mappable`
registration and TLB invalidation (`invlpg`). -/
inductive Event where
  | addMapping (mappable : Nat) (r : Range) (offset : Nat) (writable : Bool)
  | removeMapping (mappable : Nat) (r : Range) (offset : Nat) (writable : Bool)
  | forkRange (r : Range)
  | copyRange (r : Range)
  | invlpg (addr : Nat)
deriving DecidableEq, Repr

/-- `BrkInfointernal` - the brk triple. -/
structure BrkInfointernal where
  brkStart : Nat
  brkEnd : Nat
  brkMemEnd : Nat
deriving DecidableEq, Repr

def BrkInfointernal.default : BrkInfointernal := ⟨0, 0, 0⟩

/-- `MmapLayout` - the memory layout (fields used by `mm.rs`). -/
structure MmapLayout where
  MinAddr : Nat
  MaxAddr : Nat
  BottomUpBase : Nat
  TopDownBase : Nat
deriving DecidableEq, Repr

def MmapLayout.default : MmapLayout := ⟨0, 0, 0, 0⟩

/-- The mutable state of one memory manager
(`MemoryManagerInternal`, mm.rs lines 51-83; the spin locks and the
dumpability enum carry no memory-state and are not modelled). -/
structure MMState where
  inited : Bool
  pt : PageTable
  vmas : List (Range × VMA)
  brkInfo : BrkInfointernal
  usageAS : Nat
  layout : MmapLayout
  curRSS : Nat
  maxRSS : Nat
  sharedLoadsOffset : Nat
  auxv : List (Nat × Nat)
  argv : Range
  envv : Range
  executable : Option Nat
deriving DecidableEq, Repr

/-- A machine configuration: one memory manager together with the
global page-frame allocator and the log of observable events. -/
structure Exec where
  mm : MMState
  pm : PageMgr
  ev : List Event
deriving DecidableEq, Repr

/-- Behaviour of the external `Mappable` collaborators:
`MapFilePage(task, fileOffset)` yields a physical frame for a file
offset.  `AddMapping` / `RemoveMapping` are modelled as always
succeeding and are recorded in the event log. -/
structure MappableEnv where
  mapFilePage : Nat → Nat → Res Nat

/-- `AreaSet::FindSeg` - the segment containing an address, if any. -/
def findSeg (vmas : List (Range × VMA)) (addr : Nat) : Option (Range × VMA) :=
  vmas.find? (fun s => s.1.Contains addr)

/-- `MemoryManager::GetVmaAndRange` (mm.rs lines 447-454). -/
def MMState.GetVmaAndRange (mm : MMState) (addr : Nat) : Option (VMA × Range) :=
  match findSeg mm.vmas addr with
  | none => none
  | some (r, v) => some (v, r)

/-- `MemoryManager::GetVma` (mm.rs lines 438-445). -/
def MMState.GetVma (mm : MMState) (addr : Nat) : Option VMA :=
  match findSeg mm.vmas addr with
  | none => none
  | some (_, v) => some v

/-- `MemoryManager::VirtualToPhy` (mm.rs lines 461-468): `EFAULT` on a
null address, otherwise the page-table query, which fails with
`AddressNotMap` on an absent leaf. -/
def MMState.VirtualToPhy (mm : MMState) (vAddr : Nat) : Res (Nat × Bool) :=
  if vAddr = 0 then .error (.SysError SysErr.EFAULT)
  else
    match ptLookup mm.pt (roundDown vAddr) with
    | none => .error (.AddressNotMap vAddr)
    | some e => .ok (e.pa + vAddr % MemoryDef.PAGE_SIZE, e.writable)

/-- `MemoryManager::MapPageRead` (mm.rs lines 629-633). -/
def Exec.MapPageRead (s : Exec) (vAddr pAddr : Nat) : Exec :=
  { s with mm := { s.mm with pt := ptSet s.mm.pt vAddr ⟨pAddr, false, true⟩ } }

/-- `MemoryManager::MapPageWrite` (mm.rs lines 623-627). -/
def Exec.MapPageWrite (s : Exec) (vAddr pAddr : Nat) : Exec :=
  { s with mm := { s.mm with pt := ptSet s.mm.pt vAddr ⟨pAddr, true, true⟩ } }

/-- `MemoryManager::EnableWrite` (mm.rs lines 616-621):
`SetPageFlags(addr, UserReadWrite)`. -/
def Exec.EnableWrite (s : Exec) (addr : Nat) : Exec :=
  { s with mm := { s.mm with pt := ptSetPageFlags s.mm.pt addr true true } }

/-- `MemoryManager::InstallPage` (mm.rs lines 482-528): return if the
page is already mapped; otherwise obtain a frame (from the `Mappable`
for file-backed VMAs, from the allocator for anonymous ones) and
install it read-only for private or non-writable VMAs, read-write for
writable shared ones. -/
def Exec.InstallPage (s : Exec) (env : MappableEnv) (vma : VMA)
    (pageAddr : Nat) (range : Range) : Exec × Res Unit :=
  match s.mm.VirtualToPhy pageAddr with
  | .ok _ => (s, .ok ())
  | .error _ =>
    match vma.mappable with
    | some mappable =>
      let vmaOffset := pageAddr - range.Start
      let fileOffset := vmaOffset + vma.offset
      match env.mapFilePage mappable fileOffset with
      | .error e => (s, .error e)
      | .ok phyAddr =>
        if vma.vmaPrivate then (s.MapPageRead pageAddr phyAddr, .ok ())
        else if vma.effectivePerms.write then (s.MapPageWrite pageAddr phyAddr, .ok ())
        else (s.MapPageRead pageAddr phyAddr, .ok ())
    | none =>
      let phyAddr := (s.pm.AllocPage).1
      let s1 : Exec := { s with pm := (s.pm.AllocPage).2 }
      if vma.vmaPrivate then (s1.MapPageRead pageAddr phyAddr, .ok ())
      else if vma.effectivePerms.write then (s1.MapPageWrite pageAddr phyAddr, .ok ())
      else (s1.MapPageRead pageAddr phyAddr, .ok ())

/-- `MemoryManager::InstallPageWithAddr` (mm.rs lines 470-480). -/
def Exec.InstallPageWithAddr (s : Exec) (env : MappableEnv)
    (pageAddr : Nat) : Exec × Res Unit :=
  match s.mm.GetVmaAndRange pageAddr with
  | none => (s, .error (.SysError SysErr.EFAULT))
  | some (vma, range) => s.InstallPage env vma pageAddr range

/-- `MemoryManager::CopyOnWriteLocked` (mm.rs lines 583-605).  The
source panics when the translation or the reference count is missing;
those cases leave the state unchanged here and are excluded by the
theoremsʼ hypotheses. -/
def Exec.CopyOnWriteLocked (s : Exec) (pageAddr : Nat) (vma : VMA) : Exec :=
  match s.mm.VirtualToPhy pageAddr with
  | .error _ => s
  | .ok (phyAddr, writable) =>
    if writable then s
    else
      match s.pm.GetRef phyAddr with
      | none => s
      | some refCount =>
        let s' :=
          if refCount = 1 ∧ vma.mappable = none then s.EnableWrite pageAddr
          else
            let (page, pm') := s.pm.AllocPage
            let s1 : Exec := { s with pm := pm'.copyContent phyAddr page }
            s1.MapPageWrite pageAddr page
        { s' with ev := s'.ev ++ [.invlpg pageAddr] }

/-- `MemoryManager::CopyOnWrite` (mm.rs lines 607-614): the locked
variant under the metadata lock (locking itself is not modelled). -/
def Exec.CopyOnWrite (s : Exec) (pageAddr : Nat) (vma : VMA) : Exec :=
  s.CopyOnWriteLocked pageAddr vma

/-- One translate-and-fault-in step of the `FixPermission` loop
(mm.rs lines 543-552): `AddressNotMap` triggers `InstallPageWithAddr`
followed by a re-translation; any other error propagates. -/
def fixPermTranslate (s : Exec) (env : MappableEnv) (addr : Nat) :
    Exec × Res Bool :=
  match s.mm.VirtualToPhy addr with
  | .ok (_, w) => (s, .ok w)
  | .error (.AddressNotMap _) =>
    match s.InstallPageWithAddr env addr with
    | (s', .error e) => (s', .error e)
    | (s', .ok _) =>
      match s'.mm.VirtualToPhy addr with
      | .ok (_, w) => (s', .ok w)
      | .error e => (s', .error e)
  | .error e => (s, .error e)

/-- The page loop of `FixPermission` (mm.rs lines 542-578), recursing
on the number of remaining iterations: translate (faulting the page in
if needed); when a write is requested on a non-writable page, consult
the VMA - a missing VMA or a VMA without effective write permission
ends the walk (`EFAULT` when `allowPartial` holds with `addr < vAddr`,
otherwise the wrapping prefix length `addr - vAddr`), and otherwise
the page is COW-resolved and the walk continues. -/
def fixPermDeny (allowPart : Bool) (vAddr addr : Nat) (s' : Exec) :
    Exec × Res Nat :=
  if allowPart && decide (addr < vAddr) then
    (s', .error (.SysError SysErr.EFAULT))
  else (s', .ok (sub64 addr vAddr))

def fixPermLoop (env : MappableEnv) (writeReq allowPart : Bool)
    (vAddr len : Nat) : Nat → Nat → Exec → Exec × Res Nat
  | _, 0, s => (s, .ok len)
  | addr, Nat.succ n, s =>
    let s' := (fixPermTranslate s env addr).1
    match (fixPermTranslate s env addr).2 with
    | .error e => (s', .error e)
    | .ok w =>
      if writeReq && !w then
        match s'.mm.GetVma addr with
        | none => fixPermDeny allowPart vAddr addr s'
        | some vma =>
          if !vma.effectivePerms.write then fixPermDeny allowPart vAddr addr s'
          else
            fixPermLoop env writeReq allowPart vAddr len
              (addr + MemoryDef.PAGE_SIZE) n (s'.CopyOnWrite addr vma)
      else
        fixPermLoop env writeReq allowPart vAddr len
          (addr + MemoryDef.PAGE_SIZE) n s'

/-- Number of iterations of the `while addr <= vAddr + len - 1` loop
starting from the rounded-down address. -/
def fixPermIters (vAddr len : Nat) : Nat :=
  let last := vAddr + len - 1
  let addr0 := roundDown vAddr
  if last < addr0 then 0 else (last - addr0) / MemoryDef.PAGE_SIZE + 1

/-- Embedding of `MemoryManager::FixPermission` (mm.rs lines 535-581):
check the address range and walk it page by page. -/
def Exec.FixPermission (s : Exec) (env : MappableEnv) (vAddr len : Nat)
    (writeReq allowPart : Bool) : Exec × Res Nat :=
  if U64MAX - vAddr < len ∨ vAddr = 0 then
    (s, .error (.SysError SysErr.EFAULT))
  else
    fixPermLoop env writeReq allowPart vAddr len
      (roundDown vAddr) (fixPermIters vAddr len) s

/-- Modelled from the spec: `FixPermissionLocked` - the fix-up already
holding the metadata lock; locking is not modelled, so it coincides
with `FixPermission`. -/
def Exec.FixPermissionLocked (s : Exec) (env : MappableEnv)
    (vAddr len : Nat) (writeReq allowPart : Bool) : Exec × Res Nat :=
  s.FixPermission env vAddr len writeReq allowPart

/-- Embedding of `Task::CheckPermission` (`task_usermem.rs` lines
378-388): `Ok(0)` for a zero length before the null-address check,
then `FixPermission`. -/
def Exec.CheckPermission (s : Exec) (env : MappableEnv) (vAddr len : Nat)
    (writeReq allowPart : Bool) : Exec × Res Nat :=
  if len = 0 then (s, .ok 0)
  else if vAddr = 0 then (s, .error (.SysError SysErr.EFAULT))
  else s.FixPermission env vAddr len writeReq allowPart

/-- Embedding of `MemoryManager::CheckPermissionLocked`
(`task_usermem.rs` lines 235-245) over the full machine state. -/
def Exec.CheckPermissionLocked (s : Exec) (env : MappableEnv)
    (vAddr len : Nat) (writeReq allowPart : Bool) : Exec × Res Nat :=
  if len = 0 then (s, .ok 0)
  else if vAddr = 0 then (s, .error (.SysError SysErr.EFAULT))
  else s.FixPermissionLocked env vAddr len writeReq allowPart

/-! ## Lifecycle operations: Clear, Fork, RemoveVMAsLocked, Init, PopulateVMA -/

/-- The segment loop of `MemoryManager::Clear` (mm.rs lines 403-423):
keep kernel VMAs; for the others notify the mappable, unmap the range
from the page table and remove the segment.  (The switch to the kernel
page table on an active address space touches only the CPU, which is
not part of the model.) -/
def clearSegs (pt : PageTable) (ev : List Event) :
    List (Range × VMA) → List (Range × VMA) × PageTable × List Event
  | [] => ([], pt, ev)
  | (r, vma) :: rest =>
    if vma.kernel then
      let res := clearSegs pt ev rest
      ((r, vma) :: res.1, res.2)
    else
      let ev1 := match vma.mappable with
        | some m => ev ++ [Event.removeMapping m r vma.offset vma.CanWriteMappableLocked]
        | none => ev
      clearSegs (ptMUnmap pt r) ev1 rest

/-- Embedding of `MemoryManager::Clear` (mm.rs lines 395-426). -/
def Exec.Clear (s : Exec) : Exec × Res Unit :=
  let res := clearSegs s.mm.pt s.ev s.mm.vmas
  ({ s with
      mm := { s.mm with pt := res.2.1, vmas := res.1 }
      ev := res.2.2 }, .ok ())

/-- The segment loop of `MemoryManager::Fork` (mm.rs lines 732-763):
register the mapping with the mappable, COW-mark private non-kernel
ranges (`ForkRange`), deep-copy shared non-kernel ranges (`CopyRange`),
skip the page-table copy for kernel VMAs, and insert every segment
into the child set.  `AddMapping` is modelled as always succeeding,
so the unwind path (mm.rs lines 740-746) is unreachable here. -/
def forkSegs (srcPt dstPt : PageTable) (pm : PageMgr) (ev : List Event)
    (childVmas : List (Range × VMA)) :
    List (Range × VMA) →
      PageTable × PageTable × PageMgr × List Event × List (Range × VMA)
  | [] => (srcPt, dstPt, pm, ev, childVmas)
  | (vmaAR, vma) :: rest =>
    let ev1 := match vma.mappable with
      | some m => ev ++ [Event.addMapping m vmaAR vma.offset vma.CanWriteMappableLocked]
      | none => ev
    if vma.kernel = false then
      if vma.vmaPrivate then
        forkSegs (ptForkRange srcPt dstPt vmaAR).1 (ptForkRange srcPt dstPt vmaAR).2
          pm (ev1 ++ [Event.forkRange vmaAR]) (childVmas ++ [(vmaAR, vma)]) rest
      else
        forkSegs srcPt (ptCopyRange srcPt dstPt vmaAR pm).1
          (ptCopyRange srcPt dstPt vmaAR pm).2 (ev1 ++ [Event.copyRange vmaAR])
          (childVmas ++ [(vmaAR, vma)]) rest
    else forkSegs srcPt dstPt pm ev1 (childVmas ++ [(vmaAR, vma)]) rest

/-- Embedding of `MemoryManager::Fork` (mm.rs lines 698-767): copy the
scalar state, fork the page table (write-protecting user leaves) and
run the segment loop.  Returns the updated parent configuration
together with the child `MMState`. -/
def Exec.Fork (s : Exec) : Exec × MMState :=
  let mm := s.mm
  let res := forkSegs (ptFork mm.pt).1 (ptFork mm.pt).2 s.pm s.ev [] mm.vmas
  let child : MMState :=
    { inited := true
      pt := res.2.1
      vmas := res.2.2.2.2
      brkInfo := mm.brkInfo
      usageAS := mm.usageAS
      layout := mm.layout
      curRSS := mm.curRSS
      maxRSS := mm.maxRSS
      sharedLoadsOffset := mm.sharedLoadsOffset
      auxv := mm.auxv
      argv := mm.argv
      envv := mm.envv
      executable := mm.executable }
  ({ s with
      mm := { mm with pt := res.1 }
      pm := res.2.2.1
      ev := res.2.2.2.1 }, child)

/-- `MemoryManagerInternal::AddRssLock` (mm.rs lines 203-208). -/
def MMState.AddRssLock (mm : MMState) (ar : Range) : MMState :=
  let c := mm.curRSS + ar.Len
  { mm with curRSS := c, maxRSS := if c > mm.maxRSS then c else mm.maxRSS }

/-- `MemoryManagerInternal::RemoveRssLock` (mm.rs lines 210-212). -/
def MMState.RemoveRssLock (mm : MMState) (ar : Range) : MMState :=
  { mm with curRSS := mm.curRSS - ar.Len }

/-- Overlap test of two ranges. -/
def Range.Overlaps (a b : Range) : Bool :=
  decide (a.Start < b.End ∧ b.Start < a.End)

/-- Intersection of two overlapping ranges. -/
def Range.Intersect (a b : Range) : Range :=
  let s := max a.Start b.Start
  ⟨s, min a.End b.End - s⟩

/-- The segment loop of `MemoryManagerInternal::RemoveVMAsLocked`
(mm.rs lines 168-193): each segment overlapping `ar` is isolated to
`ar` (the pieces outside `ar` survive, with the file offset of a right
piece advanced accordingly - the `AreaSet::Isolate` split, modelled
from the spec), the mappable is notified, `usageAS` and the RSS
counter drop by the removed length, and the range is unmapped. -/
def removeSegs (pt : PageTable) (ev : List Event) (usage rss : Nat)
    (ar : Range) :
    List (Range × VMA) →
      List (Range × VMA) × PageTable × List Event × Nat × Nat
  | [] => ([], pt, ev, usage, rss)
  | (r, vma) :: rest =>
    if r.Overlaps ar then
      let mid := r.Intersect ar
      let leftPieces : List (Range × VMA) :=
        if r.Start < mid.Start then [(⟨r.Start, mid.Start - r.Start⟩, vma)]
        else []
      let rightPieces : List (Range × VMA) :=
        if mid.End < r.End then
          [(⟨mid.End, r.End - mid.End⟩,
            { vma with offset := vma.offset + (mid.End - r.Start) })]
        else []
      let midOffset := vma.offset + (mid.Start - r.Start)
      let ev1 := match vma.mappable with
        | some m => ev ++ [Event.removeMapping m mid midOffset vma.CanWriteMappableLocked]
        | none => ev
      let res :=
        removeSegs (ptMUnmap pt mid) ev1 (usage - mid.Len) (rss - mid.Len) ar rest
      (leftPieces ++ rightPieces ++ res.1, res.2)
    else
      let res := removeSegs pt ev usage rss ar rest
      ((r, vma) :: res.1, res.2)

/-- Embedding of `MemoryManagerInternal::RemoveVMAsLocked`
(mm.rs lines 168-193). -/
def Exec.RemoveVMAsLocked (s : Exec) (ar : Range) : Exec × Res Unit :=
  let res := removeSegs s.mm.pt s.ev s.mm.usageAS s.mm.curRSS ar s.mm.vmas
  ({ s with
      mm := { s.mm with
              vmas := res.1
              pt := res.2.1
              usageAS := res.2.2.2.1
              curRSS := res.2.2.2.2 }
      ev := res.2.2.1 }, .ok ())

namespace MemoryDef

/-- Modelled from the spec: address-space constants of `MemoryDef`
(`linux_def.rs`, not under `src/`).  The exact numerals are irrelevant
to the claims; only `PHY_* ⊆ kernel space` and the layout bounds are
used. -/
def PHY_LOWER_ADDR : Nat := 0x100000000

def PHY_UPPER_ADDR : Nat := 0x400000000

def LOWER_TOP : Nat := 0x800000000000

def VIR_MMAP_START : Nat := 0x40000000

def SHARED_START : Nat := 0x500000000000

end MemoryDef

/-- The kernel-space VMA inserted by `Init` (mm.rs lines 112-124). -/
def initKernelVMA : VMA :=
  { mappable := none
    offset := 0
    fixed := true
    realPerms := AccessType.ReadWrite
    effectivePerms := AccessType.ReadWrite
    maxPerms := AccessType.ReadWrite
    vmaPrivate := true
    growsDown := false
    kernel := true
    hint := "Kernel Space"
    id := none }

/-- Embedding of `MemoryManagerInternal::Init` (mm.rs lines 110-156):
a single kernel VMA covering `[PHY_LOWER_ADDR, PHY_UPPER_ADDR)`, the
default layout over `[VIR_MMAP_START, LOWER_TOP)`, and a fork of the
global kernel page table. -/
def MMState.Init (kernelPt : PageTable) : MMState :=
  { inited := true
    pt := (ptFork kernelPt).2
    vmas := [(⟨MemoryDef.PHY_LOWER_ADDR,
               MemoryDef.PHY_UPPER_ADDR - MemoryDef.PHY_LOWER_ADDR⟩,
              initKernelVMA)]
    brkInfo := BrkInfointernal.default
    usageAS := 0
    layout := { MinAddr := MemoryDef.VIR_MMAP_START
                MaxAddr := MemoryDef.LOWER_TOP
                BottomUpBase := MemoryDef.VIR_MMAP_START
                TopDownBase := MemoryDef.LOWER_TOP }
    curRSS := 0
    maxRSS := 0
    sharedLoadsOffset := MemoryDef.SHARED_START
    auxv := []
    argv := ⟨0, 0⟩
    envv := ⟨0, 0⟩
    executable := none }

/-- Modelled from the spec: `ApplicationAddrRange` - the application
(user) address range of an MM, derived from its layout. -/
def MMState.ApplicationAddrRange (mm : MMState) : Range :=
  ⟨mm.layout.MinAddr, mm.layout.MaxAddr - mm.layout.MinAddr⟩

/-- Map `n` pages `va ↦ pa` onwards (the page walk behind
`PageTables::MapHost` / `RemapAna`, modelled from the spec). -/
def ptMapRangeAux (pt : PageTable) (va pa : Nat) (writable : Bool) :
    Nat → PageTable
  | 0 => pt
  | Nat.succ n =>
    ptMapRangeAux (ptSet pt va ⟨pa, writable, true⟩)
      (va + MemoryDef.PAGE_SIZE) (pa + MemoryDef.PAGE_SIZE) writable n

/-- Map `n` file pages through the mappable (the page walk behind
`PageTables::MapFile`, modelled from the spec). -/
def ptMapFileAux (env : MappableEnv) (m : Nat) (pt : PageTable)
    (va fileOff : Nat) (writable : Bool) : Nat → PageTable × Res Unit
  | 0 => (pt, .ok ())
  | Nat.succ n =>
    match env.mapFilePage m fileOff with
    | .error e => (pt, .error e)
    | .ok pa =>
      ptMapFileAux env m (ptSet pt va ⟨pa, writable, true⟩)
        (va + MemoryDef.PAGE_SIZE) (fileOff + MemoryDef.PAGE_SIZE) writable n

/-- Embedding of `MemoryManager::PopulateVMA` (mm.rs lines 635-671):
private file mappings lose the write bit (COW on first write);
anonymous non-vdso ranges only account RSS (frames are faulted in
lazily); vdso ranges are mapped eagerly from `vma.offset`; file-backed
ranges are mapped eagerly only when `precommit` holds and the segment
is smaller than 2 MiB, and always account RSS. -/
def Exec.PopulateVMA (s : Exec) (env : MappableEnv)
    (vmaSeg : Range × VMA) (ar : Range) (precommit vdso : Bool) :
    Exec × Res Unit :=
  let vma := vmaSeg.2
  let perms0 := vma.effectivePerms
  let perms :=
    if vma.vmaPrivate && vma.mappable.isSome then { perms0 with write := false }
    else perms0
  let segAr := vmaSeg.1
  match vma.mappable with
  | none =>
    if !vdso then ({ s with mm := s.mm.AddRssLock ar }, .ok ())
    else
      let pt' := ptMapRangeAux s.mm.pt ar.Start vma.offset perms.write
        (ar.Len / MemoryDef.PAGE_SIZE)
      ({ s with mm := { s.mm with pt := pt' } }, .ok ())
  | some mappable =>
    let (pt1, res) :=
      if precommit && decide (segAr.Len < 0x200000) then
        ptMapFileAux env mappable s.mm.pt ar.Start
          (vma.offset + ar.Start - segAr.Start) perms.write
          (ar.Len / MemoryDef.PAGE_SIZE)
      else (s.mm.pt, .ok ())
    match res with
    | .error e => ({ s with mm := { s.mm with pt := pt1 } }, .error e)
    | .ok _ =>
      let mm1 : MMState := { s.mm with pt := pt1 }
      ({ s with mm := mm1.AddRssLock ar }, .ok ())

/-! ## The `/proc` maps snapshot (`GetSnapshot`, mm.rs lines 308-388) -/

/-- Lowercase hex digit. -/
def hexDigit (n : Nat) : Char :=
  if n < 10 then Char.ofNat (48 + n) else Char.ofNat (87 + n)

/-- Hex digits of `n`, most significant first (fuel-based so that the
definition evaluates by reduction). -/
def hexCharsAux : Nat → Nat → List Char
  | 0, _ => []
  | Nat.succ fuel, n =>
    if n < 16 then [hexDigit n]
    else hexCharsAux fuel (n / 16) ++ [hexDigit (n % 16)]

def hexChars (n : Nat) : List Char := hexCharsAux (n + 1) n

/-- Zero-pad a string on the left to width `w`. -/
def padZero (w : Nat) (s : String) : String :=
  if s.length < w then String.mk (List.replicate (w - s.length) '0') ++ s
  else s

/-- The Rust format specifier `{:0wx}`: lowercase hex, zero-padded to a
minimum width of `w`. -/
def hexPad (w n : Nat) : String := padZero w (String.mk (hexChars n))

/-- `MemoryManager::DEV_MINOR_BITS` (mm.rs line 308). -/
def DEV_MINOR_BITS : Nat := 20

/-- The base of one maps line (mm.rs lines 335-364): the
`format!("{:08x}-{:08x} {}{} {:08x} {:02x}:{:02x} {} ", ...)` call. -/
def mapsDev (vma : VMA) : Nat :=
  match vma.id with
  | none => 0
  | some m => m.deviceID

def mapsInode (vma : VMA) : Nat :=
  match vma.id with
  | none => 0
  | some m => m.inodeID

def mapsBase (r : Range) (vma : VMA) : String :=
  hexPad 8 r.Start ++ "-" ++ hexPad 8 r.End ++ " " ++
    vma.realPerms.permString ++ (if vma.vmaPrivate then "p" else "s") ++ " " ++
    hexPad 8 vma.offset ++ " " ++ hexPad 2 (mapsDev vma / 2 ^ DEV_MINOR_BITS) ++
    ":" ++ hexPad 2 (mapsDev vma % 2 ^ DEV_MINOR_BITS) ++ " " ++
    Nat.repr (mapsInode vma) ++ " "

/-- The optional name of a maps line (mm.rs lines 345-353): the hint
when it is empty, otherwise the mappingʼs `MappedName` (or nothing). -/
def mapsName (vma : VMA) : String :=
  if vma.hint.length = 0 then vma.hint
  else
    match vma.id with
    | none => ""
    | some m => m.mappedName

/-- One maps line (mm.rs lines 355-373): the base, then - when a name
is present and the base is short enough - padding so that the name
begins at byte 73, then the name and a newline. -/
def mapsLine (r : Range) (vma : VMA) : String :=
  let str := mapsBase r vma
  let s := mapsName vma
  let s' :=
    if s.length ≠ 0 ∧ str.length < 73 then
      String.mk (List.replicate (73 - str.length) ' ') ++ s
    else s
  str ++ s' ++ "\n"

/-- `MemoryManager::VSYSCALL_MAPS_ENTRY` (mm.rs line 310), byte for
byte. -/
def VSYSCALL_MAPS_ENTRY : String :=
  "ffffffffff600000-ffffffffff601000 --xp 00000000 00:00 0                  [vsyscall]\n"

/-- The segment loop of `GetSnapshot` (mm.rs lines 316-376). -/
def snapshotLines (skipKernel : Bool) : List (Range × VMA) → String
  | [] => ""
  | (r, vma) :: rest =>
    if vma.kernel && skipKernel then snapshotLines skipKernel rest
    else mapsLine r vma ++ snapshotLines skipKernel rest

/-- Embedding of `MemoryManager::GetSnapshot` (mm.rs lines 312-382). -/
def MMState.GetSnapshot (mm : MMState) (skipKernel : Bool) : String :=
  snapshotLines skipKernel mm.vmas ++ VSYSCALL_MAPS_ENTRY

/-- Embedding of `MemoryManager::GenMapsSnapshot` (mm.rs lines
384-388): the user-space snapshot. -/
def MMState.GenMapsSnapshot (mm : MMState) : String :=
  mm.GetSnapshot true

/-! ## Supporting lemmas for the flat-memory layer -/

/-- Bytes below the write window are untouched by `writeLE`. -/
theorem writeLE_lt (n : Nat) : ∀ (m : Mem) (a v x : Nat), x < a →
    writeLE m a n v x = m x := by
  induction n with
  | zero => intro m a v x _; rfl
  | succ n ih =>
    intro m a v x hx
    show writeLE (memUpd m a (v % 256)) (a + 1) n (v / 256) x = m x
    rw [ih _ _ _ _ (Nat.lt_succ_of_lt hx)]
    simp [memUpd, Nat.ne_of_lt hx]

/-- Little-endian round trip: reading back an `n`-byte write yields the
value modulo `256 ^ n`. -/
theorem readLE_writeLE (n : Nat) : ∀ (m : Mem) (a v : Nat),
    readLE (writeLE m a n v) a n = v % 256 ^ n := by
  induction n with
  | zero => intro m a v; simp [readLE, writeLE, Nat.mod_one]
  | succ n ih =>
    intro m a v
    show readLE (writeLE (memUpd m a (v % 256)) (a + 1) n (v / 256)) a (n + 1)
      = v % 256 ^ (n + 1)
    rw [readLE, writeLE_lt _ _ _ _ _ (Nat.lt_succ_self a), ih]
    simp [memUpd, pow_succ', Nat.mod_mul]

/-- `scanNul` computes the longest NUL-free prefix and whether a NUL
occurs. -/
theorem scanNul_eq (l : List Nat) :
    scanNul l = (l.takeWhile (fun b => b != 0), l.any (fun b => b == 0)) := by
  induction l with
  | nil => rfl
  | cons b rest ih =>
    by_cases hb : b = 0
    · subst hb; simp [scanNul, List.takeWhile_cons]
    · simp [scanNul, hb, ih, List.takeWhile_cons, List.any_cons]

/-- The permission clip of `CopyInString` is the identity on the flat
memory for a non-null, non-overflowing range. -/
theorem checkPermissionLockedFlat_ok (addr len : Nat) (h0 : addr ≠ 0)
    (hov : ¬(U64MAX - addr < len)) :
    CheckPermissionLockedFlat addr len false true = .ok len := by
  unfold CheckPermissionLockedFlat fixPermissionFlat
  rcases Nat.eq_zero_or_pos len with h | h
  · subst h; rfl
  · rw [if_neg (Nat.pos_iff_ne_zero.mp h), if_neg h0, if_neg]
    simp [hov, h0]

/-! ## C10 - zero-length permission checks -/

/-- C10: for every machine state, environment, address (including the
null address and addresses covered by no VMA) and every flag
combination, `CheckPermission` and `CheckPermissionLocked` with
`len = 0` return `Ok(0)` and leave the state untouched: the `len == 0`
case short-circuits before the null-address `EFAULT` check and before
any VMA or page-table lookup. -/
theorem checkPermission_zero_len (s : Exec) (env : MappableEnv)
    (addr : Nat) (writeReq allowPart : Bool) :
    s.CheckPermission env addr 0 writeReq allowPart = (s, .ok 0) ∧
    s.CheckPermissionLocked env addr 0 writeReq allowPart = (s, .ok 0) :=
  ⟨rfl, rfl⟩

/-! ## C4 - CompareAndSwap -/

/-- C4 counterexample: with the byte at address 100 holding 5,
`CompareAndSwap(addr := 100, old := 3, new := 5)` returns the observed
value 5 and leaves the memory at 100 equal to `new = 5`, yet the
returned value differs from `old`: the claimed equivalence
"memory equals `new` iff the return value equals `old`" is false. -/
theorem compareAndSwap_iff_counterexample :
    (CompareAndSwap (fun _ => 5) 100 1 3 5).2 = .ok 5 ∧
    readLE (CompareAndSwap (fun _ => 5) 100 1 3 5).1 100 1 = 5 ∧
    ¬((readLE (CompareAndSwap (fun _ => 5) 100 1 3 5).1 100 1 = 5) ↔
        (CompareAndSwap (fun _ => 5) 100 1 3 5).2 = .ok 3) := by
  refine ⟨rfl, rfl, fun h => ?_⟩
  have h2 : (CompareAndSwap (fun _ => 5) 100 1 3 5).2 = .ok 3 := h.mp rfl
  exact absurd h2 (by decide)

/-- C4 (amended): a successful `CompareAndSwap` returns the observed
value; it writes `new` exactly when the observed value equals `old`
and leaves memory untouched otherwise; consequently the memory at
`addr` afterwards equals `new` iff the returned value equals `old` or
already equalled `new`. -/
theorem compareAndSwap_amended (m : Mem) (addr n old new : Nat)
    (hnew : new < 256 ^ n) :
    (CompareAndSwap m addr n old new).2 = .ok (readLE m addr n) ∧
    (readLE m addr n = old →
      (CompareAndSwap m addr n old new).1 = writeLE m addr n new) ∧
    (readLE m addr n ≠ old → (CompareAndSwap m addr n old new).1 = m) ∧
    (readLE (CompareAndSwap m addr n old new).1 addr n = new ↔
      (readLE m addr n = old ∨ readLE m addr n = new)) := by
  by_cases h : readLE m addr n = old
  · simp only [CompareAndSwap]
    rw [if_neg (not_not_intro h)]
    refine ⟨rfl, fun _ => rfl, fun hc => absurd h hc, ?_⟩
    show readLE (writeLE m addr n new) addr n = new ↔ _
    rw [readLE_writeLE, Nat.mod_eq_of_lt hnew]
    exact ⟨fun _ => Or.inl h, fun _ => rfl⟩
  · simp only [CompareAndSwap]
    rw [if_pos h]
    refine ⟨rfl, fun hc => absurd hc h, fun _ => rfl, ?_⟩
    constructor
    · intro hv; exact Or.inr hv
    · rintro (hv | hv)
      · exact absurd hv h
      · exact hv

/-- C4 witness: instantiating the amended theorem at a zeroed memory
with `old = 0`, `new = 7` - the swap succeeds and installs 7. -/
theorem compareAndSwap_amended_witness :
    (CompareAndSwap (fun _ => 0) 8 1 0 7).2 = .ok 0 ∧
    readLE (CompareAndSwap (fun _ => 0) 8 1 0 7).1 8 1 = 7 := by
  have h := compareAndSwap_amended (fun _ => 0) 8 1 0 7 (by decide)
  refine ⟨h.1, ?_⟩
  exact h.2.2.2.mpr (Or.inl rfl)

/-! ## C6 - CopyInString -/

/-- C6: `CopyInString(task, addr, maxlen)` copies at most `maxlen`
readable bytes; when a NUL occurs among the copied bytes it returns
the prefix before the first NUL with `Ok`, and otherwise the full
`maxlen`-byte slice together with `ENAMETOOLONG`. -/
theorem copyInString_spec (m : Mem) (addr maxlen : Nat) (h0 : addr ≠ 0)
    (hov : ¬(U64MAX - addr < maxlen)) :
    ((readBytes m addr maxlen).any (fun b => b == 0) = true →
      CopyInString m addr maxlen =
        ((readBytes m addr maxlen).takeWhile (fun b => b != 0), .ok ())) ∧
    ((readBytes m addr maxlen).any (fun b => b == 0) = false →
      CopyInString m addr maxlen =
        (readBytes m addr maxlen, .error (.SysError SysErr.ENAMETOOLONG))) := by
  unfold CopyInString
  rw [checkPermissionLockedFlat_ok addr maxlen h0 hov]
  constructor
  · intro ha; simp [scanNul_eq, ha]
  · intro ha; simp [scanNul_eq, ha]

/-- The S3 guest buffer: 16 non-NUL bytes "ABCDEFGHIJKLMNOP" at
address `0x1000`. -/
def memS3 : Mem := fun a =>
  if 0x1000 ≤ a ∧ a < 0x1010 then 65 + (a - 0x1000) else 0

/-- C6 witness (scenario S3): `CopyInString(0x1000, 8)` on the S3
buffer returns the 8 bytes "ABCDEFGH" together with `ENAMETOOLONG`. -/
theorem copyInString_spec_witness :
    CopyInString memS3 0x1000 8 =
      ([65, 66, 67, 68, 69, 70, 71, 72],
        .error (.SysError SysErr.ENAMETOOLONG)) := by
  have h := (copyInString_spec memS3 0x1000 8 (by decide) (by decide)).2 (by decide)
  rw [h]; decide

/-! ## C5 - CopyInVector -/

/-- The S4 guest memory: at `0x2000` a NULL-terminated array of three
little-endian pointers `0x3000, 0x3010, 0x3020`, holding the strings
"a", "b", "c" (bytes 97, 98, 99, each NUL-terminated). -/
def memS4 : Mem := fun a =>
  if a = 0x2001 then 0x30
  else if a = 0x2008 then 0x10
  else if a = 0x2009 then 0x30
  else if a = 0x2010 then 0x20
  else if a = 0x2011 then 0x30
  else if a = 0x3000 then 97
  else if a = 0x3010 then 98
  else if a = 0x3020 then 99
  else 0

/-- C5 counterexample: on the S4 layout with budget 5, `CopyInVector`
returns `ENAMETOOLONG` - the remaining budget of 1 clamps the copy of
"c", which then lacks its NUL - and not `ENOMEM` as claimed. -/
theorem copyInVector_budget5_counterexample :
    CopyInVector memS4 0x2000 16 5 = .error (.SysError SysErr.ENAMETOOLONG) ∧
    CopyInVector memS4 0x2000 16 5 ≠ .error (.SysError SysErr.ENOMEM) := by
  constructor <;> decide

/-- C5 (amended): `CopyInVector` reads a NULL-terminated pointer array
and the pointed-to strings, decrementing the budget by `len + 1` per
element; a NULL `addr` yields the empty list; a budget that is already
exhausted (≤ 0) when an element starts yields `ENOMEM`.  On the S4
layout, budget 6 returns ["a","b","c"], while budget 5 copies "a" and
"b" and then fails with `ENAMETOOLONG` (the leftover budget of 1
truncates "c" before its NUL). -/
theorem copyInVector_amended :
    CopyInVector memS4 0x2000 16 6 = .ok [[97], [98], [99]] ∧
    CopyInVector memS4 0x2000 16 5 = .error (.SysError SysErr.ENAMETOOLONG) ∧
    (∀ (m : Mem) (maxElemSize : Nat) (maxTotalSize : Int),
      CopyInVector m 0 maxElemSize maxTotalSize = .ok []) ∧
    (∀ (m : Mem) (maxElemSize ptr : Nat) (rest : List Nat)
      (maxTotalSize : Int), ptr ≠ 0 → maxTotalSize ≤ 0 →
      civLoop m maxElemSize (ptr :: rest) maxTotalSize =
        .error (.SysError SysErr.ENOMEM)) := by
  refine ⟨by decide, by decide, fun m me mt => rfl,
    fun m me ptr rest mt hp ht => ?_⟩
  simp [civLoop, hp, ht]

/-- C5 witness: the amended theorem instantiated - a NULL address
yields the empty vector, and an element reached with budget 0 yields
`ENOMEM`. -/
theorem copyInVector_amended_witness :
    CopyInVector memS4 0 16 6 = .ok [] ∧
    civLoop memS4 16 [0x3000] 0 = .error (.SysError SysErr.ENOMEM) :=
  ⟨copyInVector_amended.2.2.1 memS4 16 6,
   copyInVector_amended.2.2.2 memS4 16 0x3000 [] 0 (by decide) (by decide)⟩

/-! ## Lemmas about the page-table map -/

theorem list_find?_filter {α} (p q : α → Bool) (l : List α)
    (h : ∀ x, p x = true → q x = true) :
    (l.filter q).find? p = l.find? p := by
  induction l with
  | nil => rfl
  | cons a t ih =>
    by_cases hq : q a = true
    · rw [List.filter_cons_of_pos hq]
      by_cases hp : p a = true
      · rw [List.find?_cons_of_pos _ hp, List.find?_cons_of_pos _ hp]
      · rw [List.find?_cons_of_neg _ (by simpa using hp),
          List.find?_cons_of_neg _ (by simpa using hp), ih]
    · have hp : ¬p a = true := fun hpa => hq (h a hpa)
      rw [List.filter_cons_of_neg (by simpa using hq),
        List.find?_cons_of_neg _ (by simpa using hp), ih]

theorem list_find?_filter_none {α} (p q : α → Bool) (l : List α)
    (h : ∀ x, p x = true → q x = false) :
    (l.filter q).find? p = none := by
  induction l with
  | nil => rfl
  | cons a t ih =>
    by_cases hq : q a = true
    · have hp : ¬p a = true := fun hpa => by simp [h a hpa] at hq
      rw [List.filter_cons_of_pos hq,
        List.find?_cons_of_neg _ (by simpa using hp), ih]
    · rw [List.filter_cons_of_neg (by simpa using hq), ih]

theorem ptLookup_ptSet_self (pt : PageTable) (va : Nat) (e : PtEntry) :
    ptLookup (ptSet pt va e) va = some e := by
  unfold ptLookup ptSet
  rw [List.find?_cons_of_pos _ (by simp)]

theorem ptLookup_ptSet_ne (pt : PageTable) (va : Nat) (e : PtEntry)
    (b : Nat) (h : b ≠ va) : ptLookup (ptSet pt va e) b = ptLookup pt b := by
  unfold ptLookup ptSet
  rw [List.find?_cons_of_neg _ (by simpa using fun hh => h hh.symm),
    list_find?_filter]
  intro x hx
  have : x.1 = b := by simpa using hx
  simp [this, h]

theorem ptLookup_map_keyed (f : Nat × PtEntry → Nat × PtEntry)
    (hf : ∀ x, (f x).1 = x.1) (pt : PageTable) (va : Nat) :
    ptLookup (pt.map f) va = (ptLookup pt va).map (fun e => (f (va, e)).2) := by
  induction pt with
  | nil => rfl
  | cons a t ih =>
    obtain ⟨k, e⟩ := a
    by_cases hk : k = va
    · subst hk
      unfold ptLookup at *
      rw [List.map_cons, List.find?_cons_of_pos _ (by simp [hf]),
        List.find?_cons_of_pos _ (by simp)]
      simp
    · unfold ptLookup at *
      rw [List.map_cons, List.find?_cons_of_neg _ (by simp [hf, hk]),
        List.find?_cons_of_neg _ (by simp [hk])]
      exact ih

theorem ptLookup_ptSetPageFlags (pt : PageTable) (va : Nat)
    (w u : Bool) (b : Nat) :
    ptLookup (ptSetPageFlags pt va w u) b =
      if b = va then
        (ptLookup pt b).map (fun e => { e with writable := w, user := u })
      else ptLookup pt b := by
  unfold ptSetPageFlags
  rw [ptLookup_map_keyed _ (fun x => by
    by_cases h : x.1 = va <;> simp [h]) pt b]
  by_cases hb : b = va
  · subst hb; simp
  · rw [if_neg hb]
    have : ∀ e : PtEntry,
        (if (b == va) = true then (b, { e with writable := w, user := u })
         else (b, e)).2 = e := by
      intro e; simp [hb]
    cases ptLookup pt b <;> simp [this, hb]

theorem ptLookup_ptMUnmap (pt : PageTable) (r : Range) (b : Nat) :
    ptLookup (ptMUnmap pt r) b =
      if r.Contains b then none else ptLookup pt b := by
  by_cases h : r.Contains b = true
  · rw [if_pos h]
    unfold ptMUnmap ptLookup
    rw [list_find?_filter_none]
    intro x hx
    have : x.1 = b := by simpa using hx
    simp [this, h]
  · rw [if_neg h]
    unfold ptMUnmap ptLookup
    rw [list_find?_filter]
    intro x hx
    have hxb : x.1 = b := by simpa using hx
    simp [hxb, h]

theorem ptLookup_append (l1 l2 : PageTable) (b : Nat) :
    ptLookup (l1 ++ l2) b =
      match ptLookup l1 b with
      | some e => some e
      | none => ptLookup l2 b := by
  induction l1 with
  | nil => rfl
  | cons a t ih =>
    by_cases hp : (a.1 == b) = true
    · unfold ptLookup at *
      rw [List.cons_append,
        List.find?_cons_of_pos (p := fun e : Nat × PtEntry => e.1 == b) _ hp,
        List.find?_cons_of_pos (p := fun e : Nat × PtEntry => e.1 == b) _ hp]
    · unfold ptLookup at *
      rw [List.cons_append,
        List.find?_cons_of_neg (p := fun e : Nat × PtEntry => e.1 == b) _ (by simpa using hp),
        List.find?_cons_of_neg (p := fun e : Nat × PtEntry => e.1 == b) _ (by simpa using hp)]
      exact ih

theorem ptLookup_filter_in (pt : PageTable) (r : Range) (b : Nat) :
    ptLookup (pt.filter (fun x => r.Contains x.1)) b =
      if r.Contains b then ptLookup pt b else none := by
  by_cases h : r.Contains b = true
  · rw [if_pos h]
    unfold ptLookup
    rw [list_find?_filter]
    intro x hx
    have : x.1 = b := by simpa using hx
    simp [this, h]
  · rw [if_neg h]
    unfold ptLookup
    rw [list_find?_filter_none]
    intro x hx
    have : x.1 = b := by simpa using hx
    simp [this, h]

theorem ptLookup_mem (pt : PageTable) (va : Nat) (e : PtEntry)
    (h : ptLookup pt va = some e) : (va, e) ∈ pt := by
  unfold ptLookup at h
  cases hf : pt.find? (fun x => x.1 == va) with
  | none => rw [hf] at h; cases h
  | some x =>
    rw [hf] at h
    have hx := List.find?_some hf
    have hmem := List.mem_of_find?_eq_some hf
    obtain ⟨k, v⟩ := x
    have hk : k = va := by simpa using hx
    cases h
    subst hk
    exact hmem

theorem findSeg_some (vmas : List (Range × VMA)) (addr : Nat)
    (rv : Range × VMA) (h : findSeg vmas addr = some rv) :
    rv ∈ vmas ∧ rv.1.Contains addr = true := by
  unfold findSeg at h
  have h2 := List.find?_some h
  exact ⟨List.mem_of_find?_eq_some h, by simpa using h2⟩

theorem roundDown_aligned (a : Nat) (h : a % MemoryDef.PAGE_SIZE = 0) :
    roundDown a = a := by
  unfold roundDown; rw [h]; exact Nat.sub_zero a

theorem roundDown_is_aligned (a : Nat) :
    roundDown a % MemoryDef.PAGE_SIZE = 0 := by
  unfold roundDown
  simp only [MemoryDef.PAGE_SIZE]
  omega

theorem aligned_add_page (a : Nat) (h : a % MemoryDef.PAGE_SIZE = 0) :
    (a + MemoryDef.PAGE_SIZE) % MemoryDef.PAGE_SIZE = 0 := by
  simp only [MemoryDef.PAGE_SIZE] at h ⊢
  omega

/-! ## Lemmas about PageMgr association lists -/

theorem assocGet_assocSet_self (l : List (Nat × Nat)) (k v : Nat) :
    assocGet (assocSet l k v) k = some v := by
  unfold assocGet assocSet
  rw [List.find?_cons_of_pos _ (by simp)]

theorem assocGet_assocSet_ne (l : List (Nat × Nat)) (k v k' : Nat)
    (h : k' ≠ k) : assocGet (assocSet l k v) k' = assocGet l k' := by
  unfold assocGet assocSet
  rw [List.find?_cons_of_neg _ (by simpa using fun hh => h hh.symm),
    list_find?_filter]
  intro x hx
  have : x.1 = k' := by simpa using hx
  simp [this, h]

/-- The translation of an aligned address with a present leaf. -/
theorem virtualToPhy_of_lookup (mm : MMState) (pageAddr : Nat) (e : PtEntry)
    (h0 : pageAddr ≠ 0) (hal : pageAddr % MemoryDef.PAGE_SIZE = 0)
    (hpt : ptLookup mm.pt pageAddr = some e) :
    mm.VirtualToPhy pageAddr = .ok (e.pa, e.writable) := by
  unfold MMState.VirtualToPhy
  rw [if_neg h0, roundDown_aligned _ hal, hpt]
  simp [hal]


/-! ## C7 - CopyOnWriteLocked -/

/-- C7: for a page with a present leaf, `CopyOnWriteLocked` (i)
returns at once when the translation is already writable; (ii) with
frame refcount 1 and no backing mappable it enables write on the
existing leaf in place - no frame is allocated, the allocator is
untouched - and invalidates the TLB entry for the page; (iii)
otherwise it allocates the next fresh frame, copies the page bytes
into it, installs it read-write at the address, and invalidates the
TLB entry for that single page.  Other leaves are never touched. -/
theorem copyOnWriteLocked_spec (s : Exec) (pageAddr : Nat) (vma : VMA)
    (e : PtEntry) (h0 : pageAddr ≠ 0)
    (hal : pageAddr % MemoryDef.PAGE_SIZE = 0)
    (hpt : ptLookup s.mm.pt pageAddr = some e) :
    (e.writable = true → s.CopyOnWriteLocked pageAddr vma = s) ∧
    (e.writable = false → s.pm.GetRef e.pa = some 1 → vma.mappable = none →
      (s.CopyOnWriteLocked pageAddr vma).pm = s.pm ∧
      ptLookup (s.CopyOnWriteLocked pageAddr vma).mm.pt pageAddr =
        some { e with writable := true, user := true } ∧
      (∀ b, b ≠ pageAddr →
        ptLookup (s.CopyOnWriteLocked pageAddr vma).mm.pt b =
          ptLookup s.mm.pt b) ∧
      (s.CopyOnWriteLocked pageAddr vma).ev = s.ev ++ [.invlpg pageAddr]) ∧
    (∀ rc, e.writable = false → s.pm.GetRef e.pa = some rc →
      ¬(rc = 1 ∧ vma.mappable = none) → e.pa ≠ s.pm.nextFrame →
      ptLookup (s.CopyOnWriteLocked pageAddr vma).mm.pt pageAddr =
        some ⟨s.pm.nextFrame, true, true⟩ ∧
      (∀ b, b ≠ pageAddr →
        ptLookup (s.CopyOnWriteLocked pageAddr vma).mm.pt b =
          ptLookup s.mm.pt b) ∧
      (s.CopyOnWriteLocked pageAddr vma).pm.nextFrame = s.pm.nextFrame + 1 ∧
      (s.CopyOnWriteLocked pageAddr vma).pm.content s.pm.nextFrame =
        s.pm.content e.pa ∧
      (s.CopyOnWriteLocked pageAddr vma).ev = s.ev ++ [.invlpg pageAddr]) := by
  have hv := virtualToPhy_of_lookup s.mm pageAddr e h0 hal hpt
  refine ⟨?_, ?_, ?_⟩
  · intro hw
    unfold Exec.CopyOnWriteLocked
    rw [hv, hw]
    rfl
  · intro hw href hmap
    simp only [Exec.CopyOnWriteLocked, hv, hw, href, hmap, Exec.EnableWrite,
      Bool.false_eq_true, if_false, and_self, if_true]
    refine ⟨trivial, ?_, ?_, trivial⟩
    · show ptLookup (ptSetPageFlags s.mm.pt pageAddr true true) pageAddr = _
      rw [ptLookup_ptSetPageFlags, if_pos rfl, hpt]
      rfl
    · intro b hb
      show ptLookup (ptSetPageFlags s.mm.pt pageAddr true true) b = _
      rw [ptLookup_ptSetPageFlags, if_neg hb]
  · intro rc hw href hnot hfresh
    simp only [Exec.CopyOnWriteLocked, hv, hw, href, Exec.MapPageWrite,
      Bool.false_eq_true, if_false, if_neg hnot, PageMgr.AllocPage]
    refine ⟨?_, ?_, ?_, ?_, ?_⟩
    · exact ptLookup_ptSet_self _ _ _
    · intro b hb
      exact ptLookup_ptSet_ne _ _ _ _ hb
    · rfl
    · show (PageMgr.copyContent _ e.pa s.pm.nextFrame).content
        s.pm.nextFrame = s.pm.content e.pa
      unfold PageMgr.copyContent PageMgr.content
      rw [assocGet_assocSet_self]
      show (Option.getD (assocGet (assocSet s.pm.contents s.pm.nextFrame 0) e.pa) 0) = _
      rw [assocGet_assocSet_ne _ _ _ _ hfresh]
    · trivial

/-- An anonymous private read-write user VMA for the COW witness. -/
def vmaC7 : VMA :=
  { mappable := none
    offset := 0
    fixed := false
    realPerms := AccessType.ReadWrite
    effectivePerms := AccessType.ReadWrite
    maxPerms := AccessType.ReadWrite
    vmaPrivate := true
    growsDown := false
    kernel := false
    hint := ""
    id := none }

/-- A machine with one read-only leaf at `0x5000` backed by frame 3,
whose refcount is 2 (shared after a fork); frame 3 holds content 42. -/
def sC7 : Exec :=
  { mm := { inited := true
            pt := [(0x5000, ⟨3, false, true⟩)]
            vmas := [(⟨0x5000, 0x1000⟩, vmaC7)]
            brkInfo := ⟨0, 0, 0⟩
            usageAS := 0x1000
            layout := ⟨0, 0, 0, 0⟩
            curRSS := 0
            maxRSS := 0
            sharedLoadsOffset := 0
            auxv := []
            argv := ⟨0, 0⟩
            envv := ⟨0, 0⟩
            executable := none }
    pm := ⟨10, [(3, 2)], [(3, 42)]⟩
    ev := [] }

/-- C7 witness: on `sC7` (refcount 2) the COW resolution copies frame
3ʼs bytes into the fresh frame 10, installs it read-write and emits
the single-page TLB invalidation. -/
theorem copyOnWriteLocked_spec_witness :
    ptLookup (sC7.CopyOnWriteLocked 0x5000 vmaC7).mm.pt 0x5000 =
      some ⟨10, true, true⟩ ∧
    (sC7.CopyOnWriteLocked 0x5000 vmaC7).pm.content 10 = 42 ∧
    (sC7.CopyOnWriteLocked 0x5000 vmaC7).ev = [.invlpg 0x5000] := by
  have h := (copyOnWriteLocked_spec sC7 0x5000 vmaC7 ⟨3, false, true⟩
    (by decide) (by decide) (by decide)).2.2 2 rfl (by decide)
    (fun hc => absurd hc.1 (by decide)) (by decide)
  refine ⟨h.1, ?_, ?_⟩
  · calc (sC7.CopyOnWriteLocked 0x5000 vmaC7).pm.content 10
        = sC7.pm.content 3 := h.2.2.2.1
    _ = 42 := by decide
  · simpa using h.2.2.2.2

/-! ## C8 - the `usage_as` invariant -/

/-- Sum of `vma.len` over the non-kernel VMAs of a set. -/
def usageSum : List (Range × VMA) → Nat
  | [] => 0
  | (r, v) :: rest => (if v.kernel then 0 else r.Len) + usageSum rest

/-- An anonymous private user VMA of one page at `0x400000`. -/
def vmaC8 : VMA :=
  { mappable := none
    offset := 0
    fixed := false
    realPerms := AccessType.ReadWrite
    effectivePerms := AccessType.ReadWrite
    maxPerms := AccessType.ReadWrite
    vmaPrivate := true
    growsDown := false
    kernel := false
    hint := ""
    id := none }

/-- An MM holding one user VMA of `0x1000` bytes plus the kernel VMA,
with `usageAS = 0x1000` - the invariant `usageAS = Σ len` holds. -/
def sC8 : Exec :=
  { mm := { inited := true
            pt := [(0x400000, ⟨7, false, true⟩)]
            vmas := [(⟨0x400000, 0x1000⟩, vmaC8),
                     (⟨MemoryDef.PHY_LOWER_ADDR,
                       MemoryDef.PHY_UPPER_ADDR - MemoryDef.PHY_LOWER_ADDR⟩,
                      initKernelVMA)]
            brkInfo := ⟨0, 0, 0⟩
            usageAS := 0x1000
            layout := ⟨0x10000, 0x40000000, 0x10000, 0x40000000⟩
            curRSS := 0x1000
            maxRSS := 0x1000
            sharedLoadsOffset := 0
            auxv := []
            argv := ⟨0, 0⟩
            envv := ⟨0, 0⟩
            executable := none }
    pm := ⟨100, [(7, 1)], []⟩
    ev := [] }

/-- C8: `Clear` breaks the `usage_as` invariant.  On `sC8` the
invariant holds before the call; `Clear` succeeds and removes the user
VMA (the non-kernel sum drops to 0), yet `usageAS` still holds the
stale value `0x1000` - `Clear` (mm.rs lines 395-426) never decrements
`usageAS`, unlike `RemoveVMAsLocked` (mm.rs line 184). -/
theorem clear_usageAS_bug :
    sC8.mm.usageAS = usageSum sC8.mm.vmas ∧
    (sC8.Clear).2 = .ok () ∧
    usageSum (sC8.Clear).1.mm.vmas = 0 ∧
    (sC8.Clear).1.mm.usageAS = 0x1000 ∧
    (sC8.Clear).1.mm.usageAS ≠ usageSum (sC8.Clear).1.mm.vmas := by
  refine ⟨by decide, by decide, by decide, by decide, by decide⟩

/-! ## C3 - Clear -/

/-- The VMA set surviving `Clear` is exactly the kernel VMAs. -/
theorem clearSegs_vmas : ∀ (vmas : List (Range × VMA)) (pt : PageTable)
    (ev : List Event),
    (clearSegs pt ev vmas).1 = vmas.filter (fun rv => rv.2.kernel) := by
  intro vmas
  induction vmas with
  | nil => intro pt ev; rfl
  | cons hd rest ih =>
    intro pt ev
    obtain ⟨r, vma⟩ := hd
    by_cases hk : vma.kernel
    · simp [clearSegs, hk, ih]
    · cases hm : vma.mappable <;> simp [clearSegs, hk, hm, ih]

/-- Events present before `Clear` survive it. -/
theorem clearSegs_ev_mono : ∀ (vmas : List (Range × VMA)) (pt : PageTable)
    (ev : List Event) (x : Event), x ∈ ev →
    x ∈ (clearSegs pt ev vmas).2.2 := by
  intro vmas
  induction vmas with
  | nil => intro pt ev x hx; exact hx
  | cons hd rest ih =>
    intro pt ev x hx
    obtain ⟨r, vma⟩ := hd
    by_cases hk : vma.kernel
    · simp only [clearSegs, if_pos hk]
      exact ih pt ev x hx
    · cases hm : vma.mappable with
      | none =>
        simp only [clearSegs, if_neg hk, hm]
        exact ih _ _ x hx
      | some m =>
        simp only [clearSegs, if_neg hk, hm]
        exact ih _ _ x (List.mem_append_left _ hx)

/-- Every removed VMA with a mappable gets a `removeMapping` event. -/
theorem clearSegs_events : ∀ (vmas : List (Range × VMA)) (pt : PageTable)
    (ev : List Event) (r : Range) (vma : VMA) (mp : Nat),
    (r, vma) ∈ vmas → vma.kernel = false → vma.mappable = some mp →
    Event.removeMapping mp r vma.offset vma.CanWriteMappableLocked ∈
      (clearSegs pt ev vmas).2.2 := by
  intro vmas
  induction vmas with
  | nil => intro pt ev r vma mp hmem; cases hmem
  | cons hd rest ih =>
    intro pt ev r vma mp hmem hk hmp
    obtain ⟨r0, v0⟩ := hd
    rcases List.mem_cons.mp hmem with heq | hmem'
    · obtain ⟨he1, he2⟩ := Prod.mk.injEq .. ▸ heq
      subst he1
      subst he2
      simp only [clearSegs, hk, Bool.false_eq_true, if_false, hmp]
      exact clearSegs_ev_mono rest _ _ _
        (List.mem_append_right _ (List.mem_singleton.mpr rfl))
    · by_cases hk0 : v0.kernel
      · simp only [clearSegs, if_pos hk0]
        exact ih pt ev r vma mp hmem' hk hmp
      · cases hm0 : v0.mappable <;>
          simp only [clearSegs, hk0, Bool.false_eq_true, if_false, hm0] <;>
          exact ih _ _ r vma mp hmem' hk hmp

/-- `MUnmap` never adds a mapping. -/
theorem ptMUnmap_none (pt : PageTable) (r : Range) (b : Nat)
    (h : ptLookup pt b = none) : ptLookup (ptMUnmap pt r) b = none := by
  rw [ptLookup_ptMUnmap]
  by_cases hc : r.Contains b = true <;> simp [hc, h]

/-- `clearSegs` never adds a mapping. -/
theorem clearSegs_pt_none : ∀ (vmas : List (Range × VMA)) (pt : PageTable)
    (ev : List Event) (b : Nat), ptLookup pt b = none →
    ptLookup (clearSegs pt ev vmas).2.1 b = none := by
  intro vmas
  induction vmas with
  | nil => intro pt ev b h; exact h
  | cons hd rest ih =>
    intro pt ev b h
    obtain ⟨r0, v0⟩ := hd
    by_cases hk : v0.kernel
    · simp only [clearSegs, if_pos hk]
      exact ih pt ev b h
    · cases hm : v0.mappable <;>
        simp only [clearSegs, hk, Bool.false_eq_true, if_false, hm] <;>
        exact ih _ _ b (ptMUnmap_none pt r0 b h)

/-- Every page covered by a removed (non-kernel) VMA is unmapped by
`Clear`. -/
theorem clearSegs_unmaps : ∀ (vmas : List (Range × VMA)) (pt : PageTable)
    (ev : List Event) (r : Range) (vma : VMA) (b : Nat),
    (r, vma) ∈ vmas → vma.kernel = false → r.Contains b = true →
    ptLookup (clearSegs pt ev vmas).2.1 b = none := by
  intro vmas
  induction vmas with
  | nil => intro pt ev r vma b hmem; cases hmem
  | cons hd rest ih =>
    intro pt ev r vma b hmem hk hcont
    obtain ⟨r0, v0⟩ := hd
    rcases List.mem_cons.mp hmem with heq | hmem'
    · obtain ⟨he1, he2⟩ := Prod.mk.injEq .. ▸ heq
      subst he1
      subst he2
      have hnone : ptLookup (ptMUnmap pt r) b = none := by
        rw [ptLookup_ptMUnmap, if_pos hcont]
      cases hm : vma.mappable <;>
        simp only [clearSegs, hk, Bool.false_eq_true, if_false, hm] <;>
        exact clearSegs_pt_none rest _ _ b hnone
    · by_cases hk0 : v0.kernel
      · simp only [clearSegs, if_pos hk0]
        exact ih pt ev r vma b hmem' hk hcont
      · cases hm : v0.mappable <;>
          simp only [clearSegs, hk0, Bool.false_eq_true, if_false, hm] <;>
          exact ih _ _ r vma b hmem' hk hcont

/-- `clearSegs` only removes page-table entries, never changes one. -/
theorem clearSegs_pt_lookup : ∀ (vmas : List (Range × VMA)) (pt : PageTable)
    (ev : List Event) (b : Nat),
    ptLookup (clearSegs pt ev vmas).2.1 b = none ∨
    ptLookup (clearSegs pt ev vmas).2.1 b = ptLookup pt b := by
  intro vmas
  induction vmas with
  | nil => intro pt ev b; exact Or.inr rfl
  | cons hd rest ih =>
    intro pt ev b
    obtain ⟨r0, v0⟩ := hd
    by_cases hk : v0.kernel
    · simp only [clearSegs, if_pos hk]
      exact ih pt ev b
    · cases hm : v0.mappable <;>
        simp only [clearSegs, hk, Bool.false_eq_true, if_false, hm] <;>
      · rcases ih (ptMUnmap pt r0) _ b with h | h
        · exact Or.inl h
        · rw [h, ptLookup_ptMUnmap]
          by_cases hc : r0.Contains b = true
          · rw [if_pos hc]; exact Or.inl rfl
          · rw [if_neg hc]; exact Or.inr rfl

/-- C3: after a successful `Clear()`, only kernel VMAs remain (and
every kernel VMA is kept), the page table holds no user leaf, every
removed VMAʼs mappable has been notified with `RemoveMapping`, and
`GetVma` is `none` on the whole application range.  The hypotheses are
the structural invariants: every user leaf lies under some non-kernel
VMA, and kernel VMAs are disjoint from the application range. -/
theorem clear_spec (s : Exec)
    (hcov : ∀ x ∈ s.mm.pt, x.2.user = true →
      ∃ rv, rv ∈ s.mm.vmas ∧ rv.2.kernel = false ∧ rv.1.Contains x.1 = true)
    (hker : ∀ rv ∈ s.mm.vmas, rv.2.kernel = true →
      s.mm.ApplicationAddrRange.End ≤ rv.1.Start ∨
        rv.1.End ≤ s.mm.ApplicationAddrRange.Start) :
    (s.Clear).2 = .ok () ∧
    (∀ rv ∈ (s.Clear).1.mm.vmas, rv.2.kernel = true) ∧
    (∀ rv ∈ s.mm.vmas, rv.2.kernel = true → rv ∈ (s.Clear).1.mm.vmas) ∧
    (∀ va e, ptLookup (s.Clear).1.mm.pt va = some e → e.user = false) ∧
    (∀ rv ∈ s.mm.vmas, rv.2.kernel = false → ∀ mp, rv.2.mappable = some mp →
      Event.removeMapping mp rv.1 rv.2.offset rv.2.CanWriteMappableLocked ∈
        (s.Clear).1.ev) ∧
    (∀ a, s.mm.ApplicationAddrRange.Contains a = true →
      ((s.Clear).1.mm).GetVma a = none) := by
  have hvmas : (s.Clear).1.mm.vmas =
      s.mm.vmas.filter (fun rv => rv.2.kernel) :=
    clearSegs_vmas s.mm.vmas s.mm.pt s.ev
  refine ⟨rfl, ?_, ?_, ?_, ?_, ?_⟩
  · intro rv hmem
    rw [hvmas] at hmem
    exact (List.mem_filter.mp hmem).2
  · intro rv hmem hk
    rw [hvmas]
    exact List.mem_filter.mpr ⟨hmem, hk⟩
  · intro va e hva
    by_cases hu : e.user = true
    · exfalso
      have hlk : ptLookup (clearSegs s.mm.pt s.ev s.mm.vmas).2.1 va = some e :=
        hva
      rcases clearSegs_pt_lookup s.mm.vmas s.mm.pt s.ev va with h | h
      · rw [hlk] at h; cases h
      · rw [hlk] at h
        obtain ⟨rv, hrv, hrvk, hrvc⟩ :=
          hcov (va, e) (ptLookup_mem _ _ _ h.symm) hu
        obtain ⟨r, vma⟩ := rv
        have := clearSegs_unmaps s.mm.vmas s.mm.pt s.ev r vma va hrv hrvk hrvc
        rw [hlk] at this; cases this
    · simpa using hu
  · intro rv hmem hk mp hmp
    obtain ⟨r, vma⟩ := rv
    exact clearSegs_events s.mm.vmas s.mm.pt s.ev r vma mp hmem hk hmp
  · intro a hcont
    show (match findSeg (s.Clear).1.mm.vmas a with
      | none => none
      | some (_, v) => some v) = none
    cases hfind : findSeg (s.Clear).1.mm.vmas a with
    | none => rfl
    | some rv =>
      exfalso
      obtain ⟨hmem, hc⟩ := findSeg_some _ _ _ hfind
      rw [hvmas] at hmem
      obtain ⟨hmem', hkrn⟩ := List.mem_filter.mp hmem
      have hd := hker rv hmem' hkrn
      simp only [Range.Contains, Range.Start, Range.End,
        MMState.ApplicationAddrRange, decide_eq_true_eq] at hcont hc hd
      omega

/-- A shared file-backed user VMA (mappable id 5) for the Clear
witness. -/
def vmaC3a : VMA :=
  { mappable := some 5
    offset := 0
    fixed := false
    realPerms := AccessType.ReadWrite
    effectivePerms := AccessType.ReadWrite
    maxPerms := AccessType.ReadWrite
    vmaPrivate := false
    growsDown := false
    kernel := false
    hint := ""
    id := none }

/-- An anonymous private user VMA for the Clear witness. -/
def vmaC3b : VMA :=
  { vmaC3a with mappable := none, vmaPrivate := true }

/-- A machine with two user VMAs, the kernel VMA, a user leaf at
`0x400000` and a kernel leaf at `PHY_LOWER_ADDR`. -/
def sC3 : Exec :=
  { mm := { inited := true
            pt := [(0x400000, ⟨7, false, true⟩),
                   (MemoryDef.PHY_LOWER_ADDR, ⟨9, true, false⟩)]
            vmas := [(⟨0x400000, 0x1000⟩, vmaC3a),
                     (⟨0x500000, 0x2000⟩, vmaC3b),
                     (⟨MemoryDef.PHY_LOWER_ADDR,
                       MemoryDef.PHY_UPPER_ADDR - MemoryDef.PHY_LOWER_ADDR⟩,
                      initKernelVMA)]
            brkInfo := ⟨0, 0, 0⟩
            usageAS := 0x3000
            layout := ⟨0x10000, 0x40000000, 0x10000, 0x40000000⟩
            curRSS := 0x1000
            maxRSS := 0x1000
            sharedLoadsOffset := 0
            auxv := []
            argv := ⟨0, 0⟩
            envv := ⟨0, 0⟩
            executable := none }
    pm := ⟨100, [(7, 1)], []⟩
    ev := [] }

/-- C3 witness: on `sC3`, `Clear` succeeds, keeps exactly the kernel
VMA, unmaps the user leaf, releases mappable 5 and answers `GetVma`
with `none` inside the application range. -/
theorem clear_spec_witness :
    (sC3.Clear).2 = .ok () ∧
    ptLookup (sC3.Clear).1.mm.pt 0x400000 = none ∧
    Event.removeMapping 5 ⟨0x400000, 0x1000⟩ 0 true ∈ (sC3.Clear).1.ev ∧
    ((sC3.Clear).1.mm).GetVma 0x400000 = none ∧
    (⟨MemoryDef.PHY_LOWER_ADDR,
      MemoryDef.PHY_UPPER_ADDR - MemoryDef.PHY_LOWER_ADDR⟩, initKernelVMA) ∈
      (sC3.Clear).1.mm.vmas := by
  have h := clear_spec sC3 (by decide) (by decide)
  refine ⟨h.1, by decide, ?_, ?_, ?_⟩
  · exact h.2.2.2.2.1 (⟨0x400000, 0x1000⟩, vmaC3a) (by decide) (by decide) 5 rfl
  · exact h.2.2.2.2.2 0x400000 (by decide)
  · exact h.2.2.1 _ (by decide) (by decide)

/-! ## C2 - Fork -/

/-- A leaf is present and read-only. -/
def ptReadOnlyAt (pt : PageTable) (va : Nat) : Prop :=
  ∃ e, ptLookup pt va = some e ∧ e.writable = false

/-- A write-protected user leaf stays non-writable. -/
theorem ptProtect_ro (e : PtEntry) (h : e.user = true) :
    (ptProtect e).writable = false := by
  cases hw : e.writable
  · unfold ptProtect; rw [h, hw]; simpa using hw
  · unfold ptProtect; rw [h, hw]; rfl

/-- `ptProtect` fixes read-only leaves. -/
theorem ptProtect_of_ro (e : PtEntry) (h : e.writable = false) :
    ptProtect e = e := by
  unfold ptProtect; rw [h]; simp

theorem ptLookup_ptFork (pt : PageTable) (va : Nat) :
    ptLookup (ptFork pt).1 va = (ptLookup pt va).map ptProtect ∧
    ptLookup (ptFork pt).2 va = (ptLookup pt va).map ptProtect := by
  constructor <;>
  · show ptLookup (pt.map (fun x => (x.1, ptProtect x.2))) va = _
    have h := ptLookup_map_keyed (fun x => (x.1, ptProtect x.2))
      (fun x => rfl) pt va
    rw [h]

/-- After `ptFork`, every user leaf is read-only in both tables. -/
theorem ptFork_ro (pt : PageTable) (va : Nat) (e : PtEntry)
    (hl : ptLookup pt va = some e) (hu : e.user = true) :
    ptReadOnlyAt (ptFork pt).1 va ∧ ptReadOnlyAt (ptFork pt).2 va := by
  obtain ⟨h1, h2⟩ := ptLookup_ptFork pt va
  rw [hl] at h1 h2
  exact ⟨⟨ptProtect e, h1, ptProtect_ro e hu⟩,
         ⟨ptProtect e, h2, ptProtect_ro e hu⟩⟩

theorem ptLookup_filter_out (pt : PageTable) (r : Range) (b : Nat) :
    ptLookup (pt.filter (fun x => !(r.Contains x.1))) b =
      if r.Contains b then none else ptLookup pt b :=
  ptLookup_ptMUnmap pt r b

theorem ptLookup_ptForkRange_src (src dst : PageTable) (r : Range)
    (va : Nat) :
    ptLookup (ptForkRange src dst r).1 va =
      (ptLookup src va).map
        (fun e => if r.Contains va then ptProtect e else e) := by
  show ptLookup (src.map _) va = _
  rw [ptLookup_map_keyed _ (fun x => by by_cases h : r.Contains x.1 = true <;>
    simp [h]) src va]
  cases ptLookup src va with
  | none => rfl
  | some e => by_cases h : r.Contains va = true <;> simp [h]

theorem ptForkRange_ro_src (src dst : PageTable) (r : Range) (va : Nat)
    (h : ptReadOnlyAt src va) : ptReadOnlyAt (ptForkRange src dst r).1 va := by
  obtain ⟨e, hl, hw⟩ := h
  by_cases hc : r.Contains va = true
  · refine ⟨ptProtect e, ?_, by rw [ptProtect_of_ro e hw]; exact hw⟩
    rw [ptLookup_ptForkRange_src, hl]
    simp [hc]
  · refine ⟨e, ?_, hw⟩
    rw [ptLookup_ptForkRange_src, hl]
    simp [hc]

theorem ptForkRange_ro_dst (src dst : PageTable) (r : Range) (va : Nat)
    (hs : ptReadOnlyAt src va) (hd : ptReadOnlyAt dst va) :
    ptReadOnlyAt (ptForkRange src dst r).2 va := by
  obtain ⟨es, hsl2, hsw2⟩ := ptForkRange_ro_src src dst r va hs
  obtain ⟨ed, hdl, hdw⟩ := hd
  by_cases hc : r.Contains va = true
  · refine ⟨es, ?_, hsw2⟩
    show ptLookup (((ptForkRange src dst r).1).filter
        (fun x => r.Contains x.1) ++
      dst.filter (fun x => !(r.Contains x.1))) va = some es
    rw [ptLookup_append, ptLookup_filter_in, if_pos hc, hsl2]
  · refine ⟨ed, ?_, hdw⟩
    show ptLookup (((ptForkRange src dst r).1).filter
        (fun x => r.Contains x.1) ++
      dst.filter (fun x => !(r.Contains x.1))) va = some ed
    rw [ptLookup_append, ptLookup_filter_in, if_neg hc,
      ptLookup_filter_out, if_neg hc, hdl]

/-- Deep-copied leaves keep the source leafʼs writable bit. -/
theorem ptCopyEntries_writable : ∀ (l : List (Nat × PtEntry)) (pm : PageMgr)
    (va : Nat),
    (ptLookup (ptCopyEntries pm l).1 va).map (fun e => e.writable) =
      (ptLookup l va).map (fun e => e.writable) := by
  intro l
  induction l with
  | nil => intro pm va; rfl
  | cons x rest ih =>
    intro pm va
    by_cases hx : (x.1 == va) = true
    · unfold ptLookup ptCopyEntries
      rw [List.find?_cons_of_pos (p := fun e : Nat × PtEntry => e.1 == va) _ (by simpa using hx),
        List.find?_cons_of_pos (p := fun e : Nat × PtEntry => e.1 == va) _ hx]
      simp
    · unfold ptLookup ptCopyEntries
      rw [List.find?_cons_of_neg (p := fun e : Nat × PtEntry => e.1 == va) _ (by simpa using hx),
        List.find?_cons_of_neg (p := fun e : Nat × PtEntry => e.1 == va) _ hx]
      exact ih _ va

theorem ptCopyRange_ro_dst (src dst : PageTable) (r : Range) (pm : PageMgr)
    (va : Nat) (hs : ptReadOnlyAt src va) (hd : ptReadOnlyAt dst va) :
    ptReadOnlyAt (ptCopyRange src dst r pm).1 va := by
  obtain ⟨es, hsl, hsw⟩ := hs
  obtain ⟨ed, hdl, hdw⟩ := hd
  show ptReadOnlyAt (_ ++ _) va
  by_cases hc : r.Contains va = true
  · have hw := ptCopyEntries_writable
      (src.filter (fun x => r.Contains x.1)) pm va
    rw [ptLookup_filter_in, if_pos hc, hsl] at hw
    cases hcl : ptLookup
        (ptCopyEntries pm (src.filter (fun x => r.Contains x.1))).1 va with
    | none => rw [hcl] at hw; cases hw
    | some ec =>
      rw [hcl] at hw
      refine ⟨ec, ?_, ?_⟩
      · rw [ptLookup_append, hcl]
      · have : ec.writable = es.writable := by
          simpa using hw
        rw [this]; exact hsw
  · refine ⟨ed, ?_, hdw⟩
    have hnone : ptLookup
        (ptCopyEntries pm (src.filter (fun x => r.Contains x.1))).1 va = none := by
      have hw := ptCopyEntries_writable
        (src.filter (fun x => r.Contains x.1)) pm va
      rw [ptLookup_filter_in, if_neg hc] at hw
      cases hcl : ptLookup
          (ptCopyEntries pm (src.filter (fun x => r.Contains x.1))).1 va with
      | none => rfl
      | some ec => rw [hcl] at hw; cases hw
    rw [ptLookup_append, hnone, ptLookup_filter_out, if_neg hc, hdl]

/-- The child VMA set accumulated by the Fork loop is the parentʼs. -/
theorem forkSegs_vmas : ∀ (vmas : List (Range × VMA)) (srcPt dstPt : PageTable)
    (pm : PageMgr) (ev : List Event) (acc : List (Range × VMA)),
    (forkSegs srcPt dstPt pm ev acc vmas).2.2.2.2 = acc ++ vmas := by
  intro vmas
  induction vmas with
  | nil => intros; simp [forkSegs]
  | cons hd rest ih =>
    intro srcPt dstPt pm ev acc
    obtain ⟨r, vma⟩ := hd
    cases hm : vma.mappable <;> by_cases hk : vma.kernel <;>
      by_cases hp : vma.vmaPrivate <;>
      simp [forkSegs, hm, hk, hp, ih]

/-- Events present before the Fork loop survive it. -/
theorem forkSegs_ev_mono : ∀ (vmas : List (Range × VMA))
    (srcPt dstPt : PageTable) (pm : PageMgr) (ev : List Event)
    (acc : List (Range × VMA)) (x : Event), x ∈ ev →
    x ∈ (forkSegs srcPt dstPt pm ev acc vmas).2.2.2.1 := by
  intro vmas
  induction vmas with
  | nil => intro _ _ _ _ _ x hx; simpa [forkSegs] using hx
  | cons hd rest ih =>
    intro srcPt dstPt pm ev acc x hx
    obtain ⟨r, vma⟩ := hd
    cases hm : vma.mappable <;> by_cases hk : vma.kernel <;>
      by_cases hp : vma.vmaPrivate <;>
      simp only [forkSegs, hm, hk, hp, Bool.false_eq_true, Bool.true_eq_false,
        if_true, if_false, reduceIte] <;>
      exact ih _ _ _ _ _ x (by simp [hx])

/-- Each parent VMA with a mappable produces an `AddMapping` call on
the child. -/
theorem forkSegs_addMapping : ∀ (vmas : List (Range × VMA))
    (srcPt dstPt : PageTable) (pm : PageMgr) (ev : List Event)
    (acc : List (Range × VMA)) (r : Range) (vma : VMA) (mp : Nat),
    (r, vma) ∈ vmas → vma.mappable = some mp →
    Event.addMapping mp r vma.offset vma.CanWriteMappableLocked ∈
      (forkSegs srcPt dstPt pm ev acc vmas).2.2.2.1 := by
  intro vmas
  induction vmas with
  | nil => intro _ _ _ _ _ _ _ _ hmem; cases hmem
  | cons hd rest ih =>
    intro srcPt dstPt pm ev acc r vma mp hmem hmp
    obtain ⟨r0, v0⟩ := hd
    rcases List.mem_cons.mp hmem with heq | hmem'
    · obtain ⟨he1, he2⟩ := Prod.mk.injEq .. ▸ heq
      subst he1
      subst he2
      by_cases hk : vma.kernel <;> by_cases hp : vma.vmaPrivate <;>
        simp only [forkSegs, hmp, hk, hp, Bool.false_eq_true,
          Bool.true_eq_false, if_true, if_false, reduceIte] <;>
        exact forkSegs_ev_mono rest _ _ _ _ _ _ (by simp)
    · cases hm0 : v0.mappable <;> by_cases hk : v0.kernel <;>
        by_cases hp : v0.vmaPrivate <;>
        simp only [forkSegs, hm0, hk, hp, Bool.false_eq_true,
          Bool.true_eq_false, if_true, if_false, reduceIte] <;>
        exact ih _ _ _ _ _ r vma mp hmem' hmp

/-- Each non-kernel parent VMA is COW-marked (`ForkRange`) when
private and deep-copied (`CopyRange`) when shared. -/
theorem forkSegs_rangeEv : ∀ (vmas : List (Range × VMA))
    (srcPt dstPt : PageTable) (pm : PageMgr) (ev : List Event)
    (acc : List (Range × VMA)) (r : Range) (vma : VMA),
    (r, vma) ∈ vmas → vma.kernel = false →
    (vma.vmaPrivate = true →
      Event.forkRange r ∈ (forkSegs srcPt dstPt pm ev acc vmas).2.2.2.1) ∧
    (vma.vmaPrivate = false →
      Event.copyRange r ∈ (forkSegs srcPt dstPt pm ev acc vmas).2.2.2.1) := by
  intro vmas
  induction vmas with
  | nil => intro _ _ _ _ _ _ _ hmem; cases hmem
  | cons hd rest ih =>
    intro srcPt dstPt pm ev acc r vma hmem hk
    obtain ⟨r0, v0⟩ := hd
    rcases List.mem_cons.mp hmem with heq | hmem'
    · obtain ⟨he1, he2⟩ := Prod.mk.injEq .. ▸ heq
      subst he1
      subst he2
      constructor
      · intro hp
        cases hm : vma.mappable <;>
          simp only [forkSegs, hm, hk, hp, Bool.false_eq_true,
            Bool.true_eq_false, if_true, if_false, reduceIte] <;>
          exact forkSegs_ev_mono rest _ _ _ _ _ _ (by simp)
      · intro hp
        cases hm : vma.mappable <;>
          simp only [forkSegs, hm, hk, hp, Bool.false_eq_true,
            Bool.true_eq_false, if_true, if_false, reduceIte] <;>
          exact forkSegs_ev_mono rest _ _ _ _ _ _ (by simp)
    · cases hm0 : v0.mappable <;> by_cases hk0 : v0.kernel <;>
        by_cases hp0 : v0.vmaPrivate <;>
        simp only [forkSegs, hm0, hk0, hp0, Bool.false_eq_true,
          Bool.true_eq_false, if_true, if_false, reduceIte] <;>
        exact ih _ _ _ _ _ r vma hmem' hk

/-- The Fork loop preserves a read-only leaf in both tables. -/
theorem forkSegs_ro : ∀ (vmas : List (Range × VMA))
    (srcPt dstPt : PageTable) (pm : PageMgr) (ev : List Event)
    (acc : List (Range × VMA)) (va : Nat),
    ptReadOnlyAt srcPt va → ptReadOnlyAt dstPt va →
    ptReadOnlyAt (forkSegs srcPt dstPt pm ev acc vmas).1 va ∧
    ptReadOnlyAt (forkSegs srcPt dstPt pm ev acc vmas).2.1 va := by
  intro vmas
  induction vmas with
  | nil => intro _ _ _ _ _ _ hro1 hro2; exact ⟨hro1, hro2⟩
  | cons hd rest ih =>
    intro srcPt dstPt pm ev acc va hro1 hro2
    obtain ⟨r, vma⟩ := hd
    cases hm : vma.mappable <;> by_cases hk : vma.kernel <;>
      by_cases hp : vma.vmaPrivate <;>
      simp only [forkSegs, hm, hk, hp, Bool.false_eq_true,
        Bool.true_eq_false, if_true, if_false, reduceIte] <;>
      first
      | exact ih _ _ _ _ _ va hro1 hro2
      | exact ih _ _ _ _ _ va (ptForkRange_ro_src _ _ _ _ hro1)
          (ptForkRange_ro_dst _ _ _ _ hro1 hro2)
      | exact ih _ _ _ _ _ va hro1 (ptCopyRange_ro_dst _ _ _ _ _ hro1 hro2)

/-- C2: `Fork` copies the VMA set verbatim into the child (so the two
agree on user space), copies the scalar state, registers an
`AddMapping` with the childʼs identity for every VMA with a mappable,
COW-marks (`ForkRange`) every private non-kernel VMA and deep-copies
(`CopyRange`) every shared one, and leaves every user leaf that was
writable read-only in both the parentʼs and the childʼs page table. -/
theorem fork_spec (s : Exec) :
    (s.Fork).2.vmas = s.mm.vmas ∧
    ((s.Fork).2.inited = true ∧
      (s.Fork).2.brkInfo = s.mm.brkInfo ∧
      (s.Fork).2.usageAS = s.mm.usageAS ∧
      (s.Fork).2.layout = s.mm.layout ∧
      (s.Fork).2.curRSS = s.mm.curRSS ∧
      (s.Fork).2.maxRSS = s.mm.maxRSS ∧
      (s.Fork).2.auxv = s.mm.auxv ∧
      (s.Fork).2.argv = s.mm.argv ∧
      (s.Fork).2.envv = s.mm.envv ∧
      (s.Fork).2.executable = s.mm.executable) ∧
    (∀ rv ∈ s.mm.vmas, ∀ mp, rv.2.mappable = some mp →
      Event.addMapping mp rv.1 rv.2.offset rv.2.CanWriteMappableLocked ∈
        (s.Fork).1.ev) ∧
    (∀ rv ∈ s.mm.vmas, rv.2.kernel = false →
      (rv.2.vmaPrivate = true → Event.forkRange rv.1 ∈ (s.Fork).1.ev) ∧
      (rv.2.vmaPrivate = false → Event.copyRange rv.1 ∈ (s.Fork).1.ev)) ∧
    (∀ va e, ptLookup s.mm.pt va = some e → e.user = true →
      ptReadOnlyAt (s.Fork).1.mm.pt va ∧ ptReadOnlyAt (s.Fork).2.pt va) := by
  refine ⟨?_, ⟨rfl, rfl, rfl, rfl, rfl, rfl, rfl, rfl, rfl, rfl⟩, ?_, ?_, ?_⟩
  · show (forkSegs (ptFork s.mm.pt).1 (ptFork s.mm.pt).2 s.pm s.ev []
      s.mm.vmas).2.2.2.2 = s.mm.vmas
    rw [forkSegs_vmas]
    rfl
  · intro rv hmem mp hmp
    obtain ⟨r, vma⟩ := rv
    exact forkSegs_addMapping s.mm.vmas _ _ _ _ _ r vma mp hmem hmp
  · intro rv hmem hk
    obtain ⟨r, vma⟩ := rv
    exact forkSegs_rangeEv s.mm.vmas _ _ _ _ _ r vma hmem hk
  · intro va e hl hu
    obtain ⟨h1, h2⟩ := ptFork_ro s.mm.pt va e hl hu
    exact forkSegs_ro s.mm.vmas _ _ _ _ _ va h1 h2

/-- A parent machine for the Fork witness: a private anonymous user
VMA at `0x400000` with a writable user leaf, a shared file-backed VMA
at `0x500000` (mappable 5), and the kernel VMA. -/
def sC2 : Exec :=
  { mm := { inited := true
            pt := [(0x400000, ⟨5, true, true⟩)]
            vmas := [(⟨0x400000, 0x1000⟩, vmaC8),
                     (⟨0x500000, 0x1000⟩, vmaC3a),
                     (⟨MemoryDef.PHY_LOWER_ADDR,
                       MemoryDef.PHY_UPPER_ADDR - MemoryDef.PHY_LOWER_ADDR⟩,
                      initKernelVMA)]
            brkInfo := ⟨0, 0, 0⟩
            usageAS := 0x2000
            layout := ⟨0x10000, 0x40000000, 0x10000, 0x40000000⟩
            curRSS := 0x1000
            maxRSS := 0x1000
            sharedLoadsOffset := 0
            auxv := []
            argv := ⟨0, 0⟩
            envv := ⟨0, 0⟩
            executable := none }
    pm := ⟨50, [], []⟩
    ev := [] }

/-- C2 witness: on `sC2`, `Fork` reproduces the VMA set in the child,
emits `ForkRange` for the private VMA, `CopyRange` and `AddMapping`
for the shared file-backed one, and the writable user leaf at
`0x400000` is read-only in both parent and child afterwards. -/
theorem fork_spec_witness :
    (sC2.Fork).2.vmas = sC2.mm.vmas ∧
    Event.forkRange ⟨0x400000, 0x1000⟩ ∈ (sC2.Fork).1.ev ∧
    Event.copyRange ⟨0x500000, 0x1000⟩ ∈ (sC2.Fork).1.ev ∧
    Event.addMapping 5 ⟨0x500000, 0x1000⟩ 0 true ∈ (sC2.Fork).1.ev ∧
    ptReadOnlyAt (sC2.Fork).1.mm.pt 0x400000 ∧
    ptReadOnlyAt (sC2.Fork).2.pt 0x400000 := by
  have h := fork_spec sC2
  obtain ⟨hro1, hro2⟩ := h.2.2.2.2 0x400000 ⟨5, true, true⟩ (by decide) rfl
  refine ⟨h.1, ?_, ?_, ?_, hro1, hro2⟩
  · exact (h.2.2.2.1 (⟨0x400000, 0x1000⟩, vmaC8) (by decide) rfl).1 rfl
  · exact (h.2.2.2.1 (⟨0x500000, 0x1000⟩, vmaC3a) (by decide) rfl).2 rfl
  · exact h.2.2.1 (⟨0x500000, 0x1000⟩, vmaC3a) (by decide) 5 rfl

/-! ## C9 - the maps snapshot format -/

theorem string_length_mk (l : List Char) : (String.mk l).length = l.length :=
  rfl

theorem string_length_append (a b : String) :
    (a ++ b).length = a.length + b.length := by
  show (a.data ++ b.data).length = a.data.length + b.data.length
  exact List.length_append a.data b.data

theorem string_append_assoc (a b c : String) :
    a ++ b ++ c = a ++ (b ++ c) :=
  String.ext (List.append_assoc a.data b.data c.data)

theorem string_empty_append (s : String) : "" ++ s = s :=
  String.ext (List.nil_append s.data)

/-- The permission string is always three characters. -/
theorem permString_length (a : AccessType) : a.permString.length = 3 := by
  obtain ⟨rd, wr, ex⟩ := a
  cases rd <;> cases wr <;> cases ex <;> rfl

theorem hexCharsAux_length : ∀ (fuel n k : Nat), n < fuel → n < 16 ^ k →
    1 ≤ k → (hexCharsAux fuel n).length ≤ k := by
  intro fuel
  induction fuel with
  | zero => intro n k h; omega
  | succ fuel ih =>
    intro n k hfuel hnk hk
    by_cases h16 : n < 16
    · simp only [hexCharsAux, if_pos h16, List.length_cons, List.length_nil]
      omega
    · simp only [hexCharsAux, if_neg h16, List.length_append,
        List.length_cons, List.length_nil]
      have hk2 : 2 ≤ k := by
        by_contra hlt
        have hone : k = 1 := by omega
        subst hone
        simp at hnk
        omega
      have hdiv : n / 16 < 16 ^ (k - 1) := by
        rw [Nat.div_lt_iff_lt_mul (by omega)]
        calc n < 16 ^ k := hnk
        _ = 16 ^ (k - 1) * 16 := by
          conv_lhs => rw [show k = (k - 1) + 1 by omega]
          rw [pow_succ]
      have ih' := ih (n / 16) (k - 1)
        (by
          have : n / 16 < n := Nat.div_lt_self (by omega) (by omega)
          omega)
        hdiv (by omega)
      omega

/-- The Rust `{:08x}` field is exactly 8 bytes for 32-bit values, and
`{:02x}` exactly 2 bytes below 256 (zero-padded, never truncated). -/
theorem hexPad_length (w n : Nat) (hn : n < 16 ^ w) (hw : 1 ≤ w) :
    (hexPad w n).length = w := by
  unfold hexPad padZero hexChars
  have hlen := hexCharsAux_length (n + 1) n w (by omega) hn hw
  have h' : (String.mk (hexCharsAux (n + 1) n)).length =
      (hexCharsAux (n + 1) n).length := rfl
  by_cases h : (String.mk (hexCharsAux (n + 1) n)).length < w
  · rw [if_pos h]
    show (List.replicate (w - (String.mk (hexCharsAux (n + 1) n)).length) '0'
        ++ hexCharsAux (n + 1) n).length = w
    rw [List.length_append, List.length_replicate]
    rw [h'] at h ⊢
    omega
  · rw [if_neg h]
    show (hexCharsAux (n + 1) n).length = w
    rw [h'] at h
    omega

/-- The snapshot is one `mapsLine` per non-kernel VMA, closed by the
vsyscall entry. -/
theorem snapshotLines_foldr : ∀ (l : List (Range × VMA)),
    snapshotLines true l ++ VSYSCALL_MAPS_ENTRY =
      List.foldr (fun (rv : Range × VMA) acc => mapsLine rv.1 rv.2 ++ acc)
        VSYSCALL_MAPS_ENTRY (l.filter (fun rv => !rv.2.kernel)) := by
  intro l
  induction l with
  | nil => exact string_empty_append _
  | cons hd rest ih =>
    obtain ⟨r, vma⟩ := hd
    by_cases hk : vma.kernel
    · simp [snapshotLines, hk, ih]
    · simp [snapshotLines, hk, string_append_assoc, ih]

/-- C9: the user maps snapshot consists of one line per non-kernel
VMA followed by the fixed vsyscall entry; each line is the
`%08x-%08x %s%c %08x %02x:%02x %d ` base (zero-padded hex fields of
widths 8 and 2, the `rwx` permission string, `p`/`s` for
private/shared) followed by the optional name; when a name is present
and the base is shorter than 73 bytes, the line is padded with spaces
so that the name begins at byte 73; and the closing vsyscall line
covers `ffffffffff600000-ffffffffff601000` with perms `--xp` (its
`[vsyscall]` name also starting at byte 73). -/
theorem genMapsSnapshot_spec :
    (∀ mm : MMState, mm.GenMapsSnapshot =
      List.foldr (fun (rv : Range × VMA) acc => mapsLine rv.1 rv.2 ++ acc)
        VSYSCALL_MAPS_ENTRY (mm.vmas.filter (fun rv => !rv.2.kernel))) ∧
    (∀ (r : Range) (vma : VMA), mapsLine r vma = mapsBase r vma ++
      ((if (mapsName vma).length ≠ 0 ∧ (mapsBase r vma).length < 73 then
          String.mk (List.replicate (73 - (mapsBase r vma).length) ' ')
        else "") ++ (mapsName vma ++ "\n"))) ∧
    (∀ (r : Range) (vma : VMA), (mapsName vma).length ≠ 0 →
      (mapsBase r vma).length < 73 →
      (mapsBase r vma ++
        String.mk (List.replicate (73 - (mapsBase r vma).length) ' ')).length
        = 73) ∧
    (∀ n, n < 16 ^ 8 → (hexPad 8 n).length = 8) ∧
    (∀ (r : Range) (vma : VMA), r.Start < 16 ^ 8 → r.End < 16 ^ 8 →
      vma.offset < 16 ^ 8 → mapsDev vma / 2 ^ DEV_MINOR_BITS < 16 ^ 2 →
      mapsDev vma % 2 ^ DEV_MINOR_BITS < 16 ^ 2 →
      (mapsBase r vma).length = 39 + (Nat.repr (mapsInode vma)).length) ∧
    (VSYSCALL_MAPS_ENTRY.data.take 55 =
      "ffffffffff600000-ffffffffff601000 --xp 00000000 00:00 0".data ∧
     VSYSCALL_MAPS_ENTRY.data.drop 73 = "[vsyscall]\n".data) := by
  refine ⟨?_, ?_, ?_, ?_, ?_, by decide, by decide⟩
  · intro mm
    show snapshotLines true mm.vmas ++ VSYSCALL_MAPS_ENTRY = _
    exact snapshotLines_foldr mm.vmas
  · intro r vma
    unfold mapsLine
    show mapsBase r vma ++
        (if (mapsName vma).length ≠ 0 ∧ (mapsBase r vma).length < 73 then
          String.mk (List.replicate (73 - (mapsBase r vma).length) ' ') ++
            mapsName vma
         else mapsName vma) ++ "
" = _
    by_cases hcond : (mapsName vma).length ≠ 0 ∧ (mapsBase r vma).length < 73
    · rw [if_pos hcond, if_pos hcond]
      rw [string_append_assoc, string_append_assoc]
    · rw [if_neg hcond, if_neg hcond]
      rw [string_append_assoc, string_empty_append]
  · intro r vma hname hlen
    rw [string_length_append
      (mapsBase r vma)
      (String.mk (List.replicate (73 - (mapsBase r vma).length) ' '))]
    have h2 : (String.mk
        (List.replicate (73 - (mapsBase r vma).length) ' ')).length =
        73 - (mapsBase r vma).length := by
      rw [string_length_mk, List.length_replicate]
    rw [h2]
    omega
  · intro n hn
    exact hexPad_length 8 n hn (by omega)
  · intro r vma hS hE hO hmaj hmin
    unfold mapsBase
    have hps : (if vma.vmaPrivate then "p" else ("s" : String)).length = 1 := by
      cases vma.vmaPrivate <;> rfl
    simp only [string_length_append]
    rw [hexPad_length 8 r.Start hS (by omega),
      hexPad_length 8 r.End hE (by omega),
      hexPad_length 8 vma.offset hO (by omega),
      hexPad_length 2 _ hmaj (by omega),
      hexPad_length 2 _ hmin (by omega),
      permString_length, hps]
    show 8 + 1 + 8 + 1 + 3 + 1 + 1 + 8 + 1 + 2 + 1 + 2 + 1 +
      (Nat.repr (mapsInode vma)).length + 1 = 39 + (Nat.repr (mapsInode vma)).length
    omega

/-- The S5 VMA: `[0x400000, 0x401000)` private `rw-`, anonymous. -/
def vmaS5 : VMA :=
  { mappable := none
    offset := 0
    fixed := false
    realPerms := AccessType.ReadWrite
    effectivePerms := AccessType.ReadWrite
    maxPerms := AccessType.ReadWrite
    vmaPrivate := true
    growsDown := false
    kernel := false
    hint := ""
    id := none }

/-- A named file-backed VMA used to exercise the 73-byte name column. -/
def vmaC9named : VMA :=
  { vmaS5 with
      mappable := some 3
      hint := "lib"
      id := some ⟨0, 5, "/lib/libc.so"⟩ }

/-- The S5 memory manager: the single user VMA plus the kernel VMA. -/
def mmS5 : MMState :=
  { inited := true
    pt := []
    vmas := [(⟨0x400000, 0x1000⟩, vmaS5),
             (⟨MemoryDef.PHY_LOWER_ADDR,
               MemoryDef.PHY_UPPER_ADDR - MemoryDef.PHY_LOWER_ADDR⟩,
              initKernelVMA)]
    brkInfo := ⟨0, 0, 0⟩
    usageAS := 0x1000
    layout := ⟨0x10000, 0x40000000, 0x10000, 0x40000000⟩
    curRSS := 0
    maxRSS := 0
    sharedLoadsOffset := 0
    auxv := []
    argv := ⟨0, 0⟩
    envv := ⟨0, 0⟩
    executable := none }

/-- C9 witness (scenario S5): the snapshot of `mmS5` is the single
maps line followed by the vsyscall entry, and for a named VMA the
padded base reaches exactly byte 73. -/
theorem genMapsSnapshot_spec_witness :
    mmS5.GenMapsSnapshot =
      "00400000-00401000 rw-p 00000000 00:00 0 \n" ++ VSYSCALL_MAPS_ENTRY ∧
    (mapsBase ⟨0x400000, 0x1000⟩ vmaS5).length = 40 ∧
    (mapsBase ⟨0x400000, 0x1000⟩ vmaC9named ++
      String.mk (List.replicate
        (73 - (mapsBase ⟨0x400000, 0x1000⟩ vmaC9named).length) ' ')).length
      = 73 := by
  have h := genMapsSnapshot_spec
  refine ⟨?_, ?_, ?_⟩
  · rw [h.1 mmS5]
    decide
  · rw [h.2.2.2.2.1 ⟨0x400000, 0x1000⟩ vmaS5 (by decide) (by decide)
      (by decide) (by decide) (by decide)]
    decide
  · exact h.2.2.1 ⟨0x400000, 0x1000⟩ vmaC9named (by decide) (by decide)

/-! ## C1 - FixPermission -/

/-- The writable bit `InstallPage` gives a fresh leaf: read-only for
private VMAs, otherwise the effective write permission. -/
def installedWritable (vma : VMA) : Bool :=
  if vma.vmaPrivate then false else vma.effectivePerms.write

/-- The outcome of translating (and, if needed, faulting in) one page
of `FixPermission`, as a function of the pre-state. -/
def trOutcome (env : MappableEnv) (mm : MMState) (addr : Nat) : Res Bool :=
  match mm.VirtualToPhy addr with
  | .ok (_, w) => .ok w
  | .error (.AddressNotMap _) =>
    match mm.GetVmaAndRange addr with
    | none => .error (.SysError SysErr.EFAULT)
    | some (vma, range) =>
      match vma.mappable with
      | some mp =>
        match env.mapFilePage mp (addr - range.Start + vma.offset) with
        | .error e => .error e
        | .ok _ => .ok (installedWritable vma)
      | none => .ok (installedWritable vma)
  | .error e => .error e

/-- How the `FixPermission` loop treats one page: continue, stop at a
permission failure, or abort with an error. -/
inductive PageDecision where
  | proceed
  | permFail
  | fail (e : Err)
deriving DecidableEq, Repr

/-- The decision the loop takes at one page, as a function of the
pre-state. -/
def pageDecision (env : MappableEnv) (mm : MMState) (writeReq : Bool)
    (addr : Nat) : PageDecision :=
  match trOutcome env mm addr with
  | .error e => .fail e
  | .ok w =>
    if writeReq && !w then
      match mm.GetVma addr with
      | none => .permFail
      | some vma =>
        if !vma.effectivePerms.write then .permFail else .proceed
    else .proceed

/-- The first page of the walk at which the loop stops, if any. -/
def firstBad (env : MappableEnv) (mm : MMState) (writeReq : Bool) :
    Nat → Nat → Option (Nat × PageDecision)
  | _, 0 => none
  | addr, Nat.succ n =>
    match pageDecision env mm writeReq addr with
    | .proceed =>
      firstBad env mm writeReq (addr + MemoryDef.PAGE_SIZE) n
    | d => some (addr, d)

/-- `AddressNotMap` is only returned for non-null addresses. -/
theorem virtualToPhy_notmap_ne_zero (mm : MMState) (addr a0 : Nat)
    (h : mm.VirtualToPhy addr = .error (.AddressNotMap a0)) : addr ≠ 0 := by
  intro h0
  subst h0
  unfold MMState.VirtualToPhy at h
  rw [if_pos rfl] at h
  cases h

/-- One translate-and-fault-in step returns exactly `trOutcome` of the
pre-state, leaves the VMA set unchanged, and touches no page-table key
other than the processed page. -/
theorem fixPermTranslate_spec (s : Exec) (env : MappableEnv) (addr : Nat)
    (hal : addr % MemoryDef.PAGE_SIZE = 0) :
    (fixPermTranslate s env addr).2 = trOutcome env s.mm addr ∧
    (fixPermTranslate s env addr).1.mm.vmas = s.mm.vmas ∧
    (∀ b, b ≠ addr →
      ptLookup (fixPermTranslate s env addr).1.mm.pt b =
        ptLookup s.mm.pt b) := by
  rcases hV : s.mm.VirtualToPhy addr with v | e
  · obtain ⟨pa, w⟩ := v
    unfold fixPermTranslate trOutcome
    rw [hV]
    exact ⟨rfl, rfl, fun b _ => rfl⟩
  · cases e with
    | SysError n =>
      unfold fixPermTranslate trOutcome
      rw [hV]
      exact ⟨rfl, rfl, fun b _ => rfl⟩
    | AddressNotMap a0 =>
      have h0 : addr ≠ 0 := virtualToPhy_notmap_ne_zero s.mm addr a0 hV
      have hinst : ∀ (s1 : Exec) (e : PtEntry),
          s1.mm.pt = ptSet s.mm.pt addr e →
          s1.mm.VirtualToPhy addr = .ok (e.pa, e.writable) := by
        intro s1 e he
        unfold MMState.VirtualToPhy
        rw [if_neg h0, roundDown_aligned _ hal, he, ptLookup_ptSet_self]
        simp [hal]
      unfold fixPermTranslate trOutcome Exec.InstallPageWithAddr
        Exec.InstallPage
      rcases hG : s.mm.GetVmaAndRange addr with _ | ⟨vma, range⟩
      · simp [hV, hG]
      · rcases hM : vma.mappable with _ | mp
        · by_cases hP : vma.vmaPrivate
          · have hx := hinst
              (Exec.MapPageRead { s with pm := (s.pm.AllocPage).2 } addr
                (s.pm.AllocPage).1)
              ⟨(s.pm.AllocPage).1, false, true⟩ rfl
            simp only [hV, hG, hM, hP, if_true]
            rw [hx]
            refine ⟨?_, rfl, fun b hb => ptLookup_ptSet_ne _ _ _ _ hb⟩
            show Res.ok false = Res.ok (installedWritable vma)
            unfold installedWritable
            rw [if_pos hP]
          · by_cases hW : vma.effectivePerms.write = true
            · have hx := hinst
                (Exec.MapPageWrite { s with pm := (s.pm.AllocPage).2 } addr
                  (s.pm.AllocPage).1)
                ⟨(s.pm.AllocPage).1, true, true⟩ rfl
              simp only [hV, hG, hM, hP, hW, if_true, Bool.false_eq_true,
                if_false]
              rw [hx]
              refine ⟨?_, rfl, fun b hb => ptLookup_ptSet_ne _ _ _ _ hb⟩
              show Res.ok true = Res.ok (installedWritable vma)
              unfold installedWritable
              rw [if_neg hP, hW]
            · have hx := hinst
                (Exec.MapPageRead { s with pm := (s.pm.AllocPage).2 } addr
                  (s.pm.AllocPage).1)
                ⟨(s.pm.AllocPage).1, false, true⟩ rfl
              simp only [hV, hG, hM, hP, hW, Bool.false_eq_true, if_false]
              rw [hx]
              refine ⟨?_, rfl, fun b hb => ptLookup_ptSet_ne _ _ _ _ hb⟩
              show Res.ok false = Res.ok (installedWritable vma)
              unfold installedWritable
              rw [if_neg hP]
              simpa using hW
        · rcases hF : env.mapFilePage mp (addr - range.Start + vma.offset)
            with phy | e2
          · by_cases hP : vma.vmaPrivate
            · have hx := hinst (Exec.MapPageRead s addr phy)
                ⟨phy, false, true⟩ rfl
              simp only [hV, hG, hM, hF, hP, if_true]
              rw [hx]
              refine ⟨?_, rfl, fun b hb => ptLookup_ptSet_ne _ _ _ _ hb⟩
              show Res.ok false = Res.ok (installedWritable vma)
              unfold installedWritable
              rw [if_pos hP]
            · by_cases hW : vma.effectivePerms.write = true
              · have hx := hinst (Exec.MapPageWrite s addr phy)
                  ⟨phy, true, true⟩ rfl
                simp only [hV, hG, hM, hF, hP, hW, if_true,
                  Bool.false_eq_true, if_false]
                rw [hx]
                refine ⟨?_, rfl, fun b hb => ptLookup_ptSet_ne _ _ _ _ hb⟩
                show Res.ok true = Res.ok (installedWritable vma)
                unfold installedWritable
                rw [if_neg hP, hW]
              · have hx := hinst (Exec.MapPageRead s addr phy)
                  ⟨phy, false, true⟩ rfl
                simp only [hV, hG, hM, hF, hP, hW, Bool.false_eq_true,
                  if_false]
                rw [hx]
                refine ⟨?_, rfl, fun b hb => ptLookup_ptSet_ne _ _ _ _ hb⟩
                show Res.ok false = Res.ok (installedWritable vma)
                unfold installedWritable
                rw [if_neg hP]
                simpa using hW
          · simp [hV, hG, hM, hF]

/-- COW resolution leaves the VMA set and all other page-table keys
unchanged. -/
theorem copyOnWrite_state (s : Exec) (addr : Nat) (vma : VMA) :
    (s.CopyOnWrite addr vma).mm.vmas = s.mm.vmas ∧
    (∀ b, b ≠ addr →
      ptLookup (s.CopyOnWrite addr vma).mm.pt b = ptLookup s.mm.pt b) := by
  unfold Exec.CopyOnWrite Exec.CopyOnWriteLocked
  rcases hV : s.mm.VirtualToPhy addr with v | e
  · obtain ⟨pa, w⟩ := v
    cases w
    · simp only [hV, Bool.false_eq_true, if_false]
      rcases hR : s.pm.GetRef pa with _ | rc
      · simp [hR]
      · simp only [hR]
        by_cases hc : rc = 1 ∧ vma.mappable = none
        · simp only [if_pos hc, Exec.EnableWrite]
          refine ⟨trivial, fun b hb => ?_⟩
          show ptLookup (ptSetPageFlags s.mm.pt addr true true) b = _
          rw [ptLookup_ptSetPageFlags, if_neg hb]
        · simp only [if_neg hc, PageMgr.AllocPage, Exec.MapPageWrite]
          refine ⟨trivial, fun b hb => ?_⟩
          exact ptLookup_ptSet_ne _ _ _ _ hb
    · simp [hV]
  · simp [hV]

/-- `pageDecision` only depends on the VMA set and the processed
pageʼs leaf. -/
theorem pageDecision_congr (env : MappableEnv) (mm1 mm2 : MMState)
    (writeReq : Bool) (c : Nat) (hvmas : mm1.vmas = mm2.vmas)
    (hpt : ptLookup mm1.pt (roundDown c) = ptLookup mm2.pt (roundDown c)) :
    pageDecision env mm1 writeReq c = pageDecision env mm2 writeReq c := by
  have hv : mm1.VirtualToPhy c = mm2.VirtualToPhy c := by
    unfold MMState.VirtualToPhy
    rw [hpt]
  have hg : mm1.GetVmaAndRange c = mm2.GetVmaAndRange c := by
    unfold MMState.GetVmaAndRange findSeg
    rw [hvmas]
  have hgv : mm1.GetVma c = mm2.GetVma c := by
    unfold MMState.GetVma findSeg
    rw [hvmas]
  unfold pageDecision trOutcome
  rw [hv, hg, hgv]

/-- `firstBad` only depends on the VMA set and the leaves of the pages
it still has to visit. -/
theorem firstBad_congr (env : MappableEnv) (mm1 mm2 : MMState)
    (writeReq : Bool) : ∀ (n addr X : Nat), mm1.vmas = mm2.vmas →
    (∀ b, b ≠ X → ptLookup mm1.pt b = ptLookup mm2.pt b) →
    X < addr → addr % MemoryDef.PAGE_SIZE = 0 →
    firstBad env mm1 writeReq addr n = firstBad env mm2 writeReq addr n := by
  intro n
  induction n with
  | zero => intros; rfl
  | succ n ih =>
    intro addr X hvmas hdiff hX hal
    have hd := pageDecision_congr env mm1 mm2 writeReq addr hvmas
      (hdiff (roundDown addr) (by rw [roundDown_aligned _ hal]; omega))
    unfold firstBad
    rw [hd]
    cases hpd : pageDecision env mm2 writeReq addr <;> simp only []
    exact ih (addr + MemoryDef.PAGE_SIZE) X hvmas hdiff (by omega)
      (aligned_add_page _ hal)

/-- The `FixPermission` loop is characterised by the first page at
which the walk stops, computed on the pre-state. -/
theorem fixPermLoop_firstBad (env : MappableEnv) (writeReq allowPart : Bool)
    (vAddr len : Nat) : ∀ (n addr : Nat) (s : Exec),
    addr % MemoryDef.PAGE_SIZE = 0 →
    (firstBad env s.mm writeReq addr n = none →
      (fixPermLoop env writeReq allowPart vAddr len addr n s).2 = .ok len) ∧
    (∀ a, firstBad env s.mm writeReq addr n = some (a, .permFail) →
      (fixPermLoop env writeReq allowPart vAddr len addr n s).2 =
        if allowPart && decide (a < vAddr) then
          .error (.SysError SysErr.EFAULT)
        else .ok (sub64 a vAddr)) ∧
    (∀ a e, firstBad env s.mm writeReq addr n = some (a, .fail e) →
      (fixPermLoop env writeReq allowPart vAddr len addr n s).2 =
        .error e) := by
  intro n
  induction n with
  | zero =>
    intro addr s _
    refine ⟨fun _ => rfl, fun a h => ?_, fun a e h => ?_⟩ <;>
      simp [firstBad] at h
  | succ n ih =>
    intro addr s hal
    obtain ⟨hres, hvmas, hdiff⟩ := fixPermTranslate_spec s env addr hal
    rcases hTr : trOutcome env s.mm addr with w | e
    · rw [hTr] at hres
      by_cases hw : (writeReq && !w) = true
      · have hgv : (fixPermTranslate s env addr).1.mm.GetVma addr =
            s.mm.GetVma addr := by
          unfold MMState.GetVma findSeg
          rw [hvmas]
        rcases hG : s.mm.GetVma addr with _ | vma
        · have hpd : pageDecision env s.mm writeReq addr = .permFail := by
            unfold pageDecision
            simp only [hTr, hw, if_true, hG]
          have hfb : firstBad env s.mm writeReq addr (Nat.succ n) =
              some (addr, .permFail) := by
            unfold firstBad
            simp only [hpd]
          have hlp : (fixPermLoop env writeReq allowPart vAddr len addr
              (Nat.succ n) s).2 =
              if allowPart && decide (addr < vAddr) then
                .error (.SysError SysErr.EFAULT)
              else .ok (sub64 addr vAddr) := by
            unfold fixPermLoop
            simp only [hres, hw, if_true, hgv, hG]
            unfold fixPermDeny
            by_cases hc : (allowPart && decide (addr < vAddr)) = true <;>
              simp [hc]
          refine ⟨fun h => ?_, fun a h => ?_, fun a e h => ?_⟩
          · rw [hfb] at h; cases h
          · rw [hfb] at h
            have ha : addr = a ∧ PageDecision.permFail = PageDecision.permFail := by
              simpa using h
            rw [← ha.1]
            exact hlp
          · rw [hfb] at h
            simp at h
        · by_cases hvw : (!vma.effectivePerms.write) = true
          · have hpd : pageDecision env s.mm writeReq addr = .permFail := by
              unfold pageDecision
              simp only [hTr, hw, if_true, hG, hvw]
            have hfb : firstBad env s.mm writeReq addr (Nat.succ n) =
                some (addr, .permFail) := by
              unfold firstBad
              simp only [hpd]
            have hlp : (fixPermLoop env writeReq allowPart vAddr len addr
                (Nat.succ n) s).2 =
                if allowPart && decide (addr < vAddr) then
                  .error (.SysError SysErr.EFAULT)
                else .ok (sub64 addr vAddr) := by
              unfold fixPermLoop
              simp only [hres, hw, if_true, hgv, hG, hvw]
              unfold fixPermDeny
              by_cases hc : (allowPart && decide (addr < vAddr)) = true <;>
                simp [hc]
            refine ⟨fun h => ?_, fun a h => ?_, fun a e h => ?_⟩
            · rw [hfb] at h; cases h
            · rw [hfb] at h
              have ha : addr = a ∧
                  PageDecision.permFail = PageDecision.permFail := by
                simpa using h
              rw [← ha.1]
              exact hlp
            · rw [hfb] at h
              simp at h
          · have hvw' : (!vma.effectivePerms.write) = false := by
              simpa using hvw
            have hpd : pageDecision env s.mm writeReq addr = .proceed := by
              unfold pageDecision
              simp only [hTr, hw, if_true, hG, hvw', Bool.false_eq_true,
                if_false]
            have hfb : firstBad env s.mm writeReq addr (Nat.succ n) =
                firstBad env s.mm writeReq (addr + MemoryDef.PAGE_SIZE) n := by
              conv_lhs => rw [firstBad]
              simp only [hpd]
            have hlp : fixPermLoop env writeReq allowPart vAddr len addr
                (Nat.succ n) s =
                fixPermLoop env writeReq allowPart vAddr len
                  (addr + MemoryDef.PAGE_SIZE) n
                  ((fixPermTranslate s env addr).1.CopyOnWrite addr vma) := by
              conv_lhs => rw [fixPermLoop]
              simp only [hres, hw, if_true, hgv, hG, hvw', Bool.false_eq_true,
                if_false]
            obtain ⟨hcvm, hcpt⟩ :=
              copyOnWrite_state (fixPermTranslate s env addr).1 addr vma
            have hcongr : firstBad env
                ((fixPermTranslate s env addr).1.CopyOnWrite addr vma).mm
                writeReq (addr + MemoryDef.PAGE_SIZE) n =
                firstBad env s.mm writeReq (addr + MemoryDef.PAGE_SIZE) n := by
              refine firstBad_congr env _ _ writeReq n
                (addr + MemoryDef.PAGE_SIZE) addr (by rw [hcvm, hvmas])
                (fun b hb => by rw [hcpt b hb, hdiff b hb]) ?_
                (aligned_add_page _ hal)
              show addr < addr + MemoryDef.PAGE_SIZE
              simp only [MemoryDef.PAGE_SIZE]
              omega
            have ihh := ih (addr + MemoryDef.PAGE_SIZE)
              ((fixPermTranslate s env addr).1.CopyOnWrite addr vma)
              (aligned_add_page _ hal)
            refine ⟨fun h => ?_, fun a h => ?_, fun a e h => ?_⟩
            · rw [hfb, ← hcongr] at h
              rw [hlp]
              exact ihh.1 h
            · rw [hfb, ← hcongr] at h
              rw [hlp]
              exact ihh.2.1 a h
            · rw [hfb, ← hcongr] at h
              rw [hlp]
              exact ihh.2.2 a e h
      · have hw' : (writeReq && !w) = false := by simpa using hw
        have hpd : pageDecision env s.mm writeReq addr = .proceed := by
          unfold pageDecision
          simp only [hTr, hw', Bool.false_eq_true, if_false]
        have hfb : firstBad env s.mm writeReq addr (Nat.succ n) =
            firstBad env s.mm writeReq (addr + MemoryDef.PAGE_SIZE) n := by
          conv_lhs => rw [firstBad]
          simp only [hpd]
        have hlp : fixPermLoop env writeReq allowPart vAddr len addr
            (Nat.succ n) s =
            fixPermLoop env writeReq allowPart vAddr len
              (addr + MemoryDef.PAGE_SIZE) n (fixPermTranslate s env addr).1 := by
          conv_lhs => rw [fixPermLoop]
          simp only [hres, hw', Bool.false_eq_true, if_false]
        have hcongr : firstBad env (fixPermTranslate s env addr).1.mm
            writeReq (addr + MemoryDef.PAGE_SIZE) n =
            firstBad env s.mm writeReq (addr + MemoryDef.PAGE_SIZE) n := by
          refine firstBad_congr env _ _ writeReq n
            (addr + MemoryDef.PAGE_SIZE) addr hvmas
            (fun b hb => hdiff b hb) ?_ (aligned_add_page _ hal)
          show addr < addr + MemoryDef.PAGE_SIZE
          simp only [MemoryDef.PAGE_SIZE]
          omega
        have ihh := ih (addr + MemoryDef.PAGE_SIZE)
          (fixPermTranslate s env addr).1 (aligned_add_page _ hal)
        refine ⟨fun h => ?_, fun a h => ?_, fun a e h => ?_⟩
        · rw [hfb, ← hcongr] at h
          rw [hlp]
          exact ihh.1 h
        · rw [hfb, ← hcongr] at h
          rw [hlp]
          exact ihh.2.1 a h
        · rw [hfb, ← hcongr] at h
          rw [hlp]
          exact ihh.2.2 a e h
    · rw [hTr] at hres
      have hpd : pageDecision env s.mm writeReq addr = .fail e := by
        unfold pageDecision
        simp only [hTr]
      have hfb : firstBad env s.mm writeReq addr (Nat.succ n) =
          some (addr, .fail e) := by
        unfold firstBad
        simp only [hpd]
      have hlp : (fixPermLoop env writeReq allowPart vAddr len addr
          (Nat.succ n) s).2 = .error e := by
        unfold fixPermLoop
        simp only [hres]
      refine ⟨fun h => ?_, fun a h => ?_, fun a e2 h => ?_⟩
      · rw [hfb] at h; cases h
      · rw [hfb] at h
        simp at h
      · rw [hfb] at h
        have ha : addr = a ∧ e = e2 := by simpa using h
        rw [← ha.2]
        exact hlp

/-- A read-only private anonymous user VMA for exercising the
permission-failure path of `FixPermission`. -/
def vmaC1 : VMA :=
  { mappable := none
    offset := 0
    fixed := false
    realPerms := AccessType.ReadOnly
    effectivePerms := AccessType.ReadOnly
    maxPerms := AccessType.ReadOnly
    vmaPrivate := true
    growsDown := false
    kernel := false
    hint := ""
    id := none }

/-- A machine with the single read-only VMA `[0x1000, 0x2000)` and an
empty page table. -/
def sC1 : Exec :=
  { mm := { inited := true
            pt := []
            vmas := [(⟨0x1000, 0x1000⟩, vmaC1)]
            brkInfo := ⟨0, 0, 0⟩
            usageAS := 0x1000
            layout := ⟨0, 0, 0, 0⟩
            curRSS := 0
            maxRSS := 0
            sharedLoadsOffset := 0
            auxv := []
            argv := ⟨0, 0⟩
            envv := ⟨0, 0⟩
            executable := none }
    pm := ⟨10, [], []⟩
    ev := [] }

/-- An environment whose file mapper always faults (never consulted on
anonymous VMAs). -/
def envC1 : MappableEnv :=
  ⟨fun _ _ => .error (.SysError SysErr.EFAULT)⟩

/-- C1 counterexample: a write request over the read-only VMA at the
page-aligned address `0x1000` with `allow_partial = false` makes no
progress, so the claim demands `EFAULT`; the code instead returns
`Ok(addr - vAddr) = Ok 0`, because the `EFAULT` branch additionally
requires `allow_partial` (mm.rs lines 563-571). -/
theorem fixPermission_partial_counterexample :
    (sC1.FixPermission envC1 0x1000 0x1000 true false).2 = .ok 0 ∧
    (sC1.FixPermission envC1 0x1000 0x1000 true false).2 ≠
      .error (.SysError SysErr.EFAULT) := by
  constructor
  · decide
  · decide

/-- C1 (amended): for `FixPermission(task, va, len, write_req,
allow_partial)` with `va != 0` and `va + len` not overflowing, the
result is determined by the first page of the walk at which the loop
stops (`firstBad` over the pre-state): if no page stops the walk it
returns `Ok len`; if the walk stops at page `a` with a permission
failure (write requested on a non-writable leaf whose VMA lacks
effective write permission, or has no VMA) it returns `EFAULT` when
`allow_partial` holds and `a < va` (no progress past the start), and
otherwise the wrapping difference `a - va` - the partial prefix length
- regardless of `allow_partial`; if the walk stops with a translation
error `e` it returns `e`. -/
theorem fixPermission_amended (env : MappableEnv) (s : Exec)
    (vAddr len : Nat) (writeReq allowPart : Bool)
    (h0 : vAddr ≠ 0) (hov : ¬(U64MAX - vAddr < len)) :
    (firstBad env s.mm writeReq (roundDown vAddr)
        (fixPermIters vAddr len) = none →
      (s.FixPermission env vAddr len writeReq allowPart).2 = .ok len) ∧
    (∀ a, firstBad env s.mm writeReq (roundDown vAddr)
        (fixPermIters vAddr len) = some (a, .permFail) →
      (s.FixPermission env vAddr len writeReq allowPart).2 =
        if allowPart && decide (a < vAddr) then
          .error (.SysError SysErr.EFAULT)
        else .ok (sub64 a vAddr)) ∧
    (∀ a e, firstBad env s.mm writeReq (roundDown vAddr)
        (fixPermIters vAddr len) = some (a, .fail e) →
      (s.FixPermission env vAddr len writeReq allowPart).2 =
        .error e) := by
  unfold Exec.FixPermission
  rw [if_neg (fun hc => hc.elim hov h0)]
  exact fixPermLoop_firstBad env writeReq allowPart vAddr len
    (fixPermIters vAddr len) (roundDown vAddr) s (roundDown_is_aligned vAddr)

/-- C1 witness: on `sC1` with the unaligned address `0x1001`, the walk
stops at page `0x1000 < 0x1001` with a permission failure, so with
`allow_partial = true` the call returns `EFAULT`. -/
theorem fixPermission_amended_witness :
    (0x1001 : Nat) ≠ 0 ∧ ¬(U64MAX - 0x1001 < 0x1000) ∧
    (sC1.FixPermission envC1 0x1001 0x1000 true true).2 =
      .error (.SysError SysErr.EFAULT) := by
  refine ⟨by decide, by decide, ?_⟩
  have h := (fixPermission_amended envC1 sC1 0x1001 0x1000 true true
    (by decide) (by decide)).2.1 0x1000 (by decide)
  simpa using h
